import Mathlib

set_option maxRecDepth 4000

/-!
Verification of the vibrant-rs color quantizer and vibrancy selector.

The definitions below are a shallow embedding of the Rust sources:
`src/quantizer/median_cut.rs`, `src/quantizer/neu.rs`, `src/quantizer/mod.rs`,
`src/palette.rs` and `src/vibrant.rs`.  Machine integers (`u8`, `u32`, `usize`)
are modelled as `Nat`; the theorems about pixel populations carry an explicit
`< 2 ^ 32` bound where the `u32` width of histogram counts matters.  Code that
can panic (`unwrap` on an empty slice or an empty heap) is modelled with
`Option`, `none` standing for the panic.  `std::collections::BinaryHeap` and
the `image`, `color_quant` and `hsl` crates are external collaborators; the
heap is modelled by its contract (pop returns a maximal element), and the
`hsl` conversions are modelled from the spec in exact rational arithmetic.
-/

namespace Vibrant

/-- `const BITS: usize = 5` from median_cut.rs. -/
def BITS : Nat := 5

/-- `struct Rgb<T> { r: T, g: T, b: T }` from median_cut.rs. -/
structure Rgb (α : Type) where
  r : α
  g : α
  b : α
deriving DecidableEq, Repr

/-- `Rgb::map` from median_cut.rs. -/
def Rgb.map {α β : Type} (c : Rgb α) (f : α → β) : Rgb β :=
  ⟨f c.r, f c.g, f c.b⟩

/-- `struct MinMax<T> { min: T, max: T }` from median_cut.rs. -/
structure MinMax (α : Type) where
  min : α
  max : α
deriving DecidableEq, Repr

/-- `MinMax::from_value` from median_cut.rs. -/
def MinMax.fromValue (value : Nat) : MinMax Nat :=
  ⟨value, value⟩

/-- `MinMax::extend` from median_cut.rs (functional version of the in-place update). -/
def MinMax.extend (m : MinMax Nat) (value : Nat) : MinMax Nat :=
  ⟨if value < m.min then value else m.min, if m.max < value then value else m.max⟩

/-- `MinMax::<Quantized>::len`: `max - min + 1` from median_cut.rs. -/
def MinMax.len (m : MinMax Nat) : Nat :=
  m.max - m.min + 1

/-- `Quantized::from_color`: `color >> (8 - BITS)` from median_cut.rs. -/
def Quantized.fromColor (color : Nat) : Nat :=
  color >>> (8 - BITS)

/-- `Quantized::to_color`: `q << (8 - BITS)` from median_cut.rs. -/
def Quantized.toColor (q : Nat) : Nat :=
  q <<< (8 - BITS)

/-- `Rgb::<Quantized>::as_color_index`: `(r << 2*BITS) | (g << BITS) | b` from median_cut.rs. -/
def Rgb.asColorIndex (c : Rgb Nat) : Nat :=
  (c.r <<< (2 * BITS)) ||| (c.g <<< BITS) ||| c.b

/-- An RGBA pixel; the `image` crate's `Rgba<u8>` with its four `u8` subpixels. -/
structure Rgba where
  r : Fin 256
  g : Fin 256
  b : Fin 256
  a : Fin 256
deriving DecidableEq, Repr

/-- The body of the closure in `Histogram::from_image`: destructure the pixel
and reduce each color channel (the alpha channel is dropped). -/
def quantizePixel (p : Rgba) : Rgb Nat :=
  (Rgb.mk p.r.val p.g.val p.b.val).map Quantized.fromColor

/-- `struct Histogram { buckets: Vec<u32> }` from median_cut.rs, modelled as the
lookup function of the bucket vector (the vector has length `1 << (3*BITS)` and
all indices used by the code are below that bound). -/
structure Histogram where
  buckets : Nat → Nat

/-- `Histogram::new`: all buckets zero-initialized. -/
def Histogram.new : Histogram :=
  ⟨fun _ => 0⟩

/-- `Histogram::insert`: `buckets[color.as_color_index()] += 1`. -/
def Histogram.insert (h : Histogram) (color : Rgb Nat) : Histogram :=
  ⟨fun i => if i = color.asColorIndex then h.buckets i + 1 else h.buckets i⟩

/-- `Histogram::count_of`: `buckets[color.as_color_index()]`. -/
def Histogram.countOf (h : Histogram) (color : Rgb Nat) : Nat :=
  h.buckets color.asColorIndex

/-- The color decoding done by `Histogram::buckets()`:
`r = idx >> 2*BITS`, `g = (idx >> BITS) & MASK`, `b = idx & MASK`
with `MASK = 0xFF >> (8 - BITS)`. -/
def indexColor (idx : Nat) : Rgb Nat :=
  ⟨idx >>> (2 * BITS), (idx >>> BITS) &&& (0xFF >>> (8 - BITS)), idx &&& (0xFF >>> (8 - BITS))⟩

/-- The insertion loop of `Histogram::from_image`: insert every color of the
list into the zero-initialized histogram. -/
def histList (cs : List (Rgb Nat)) : Histogram :=
  cs.foldl Histogram.insert Histogram.new

/-- The histogram component of `Histogram::from_image`: every pixel that passes
the filter is quantized and inserted. -/
def imageHistogram (image : List Rgba) (f : Rgba → Bool) : Histogram :=
  histList ((image.filter f).map quantizePixel)

/-- The distinct-colors component of `Histogram::from_image`: the buckets with
non-zero count, decoded to colors, in bucket-index order. -/
def imageDistinctColors (image : List Rgba) (f : Rgba → Bool) : List (Rgb Nat) :=
  ((List.range (1 <<< (3 * BITS))).filter
    (fun i => (imageHistogram image f).buckets i != 0)).map indexColor

/-- `Histogram::from_image`: build the histogram from the pixels that pass the
filter, and collect the distinct quantized colors (buckets with non-zero count)
in bucket-index order. -/
def Histogram.fromImage (image : List Rgba) (f : Rgba → Bool) :
    Histogram × List (Rgb Nat) :=
  (imageHistogram image f, imageDistinctColors image f)

/-- `struct Bounds(Rgb<MinMax<Quantized>>)` from median_cut.rs. -/
structure Bounds where
  val : Rgb (MinMax Nat)
deriving DecidableEq, Repr

/-- `enum Dimension { R, G, B }` from median_cut.rs. -/
inductive Dimension where
  | R
  | G
  | B
deriving DecidableEq, Repr

/-- `Bounds::new` from median_cut.rs. -/
def Bounds.new (color : Rgb Nat) : Bounds :=
  ⟨color.map MinMax.fromValue⟩

/-- `Bounds::extend` from median_cut.rs (per-channel `MinMax::extend`). -/
def Bounds.extend (bd : Bounds) (color : Rgb Nat) : Bounds :=
  ⟨⟨bd.val.r.extend color.r, bd.val.g.extend color.g, bd.val.b.extend color.b⟩⟩

/-- `Bounds::volume`: product of the three channel span lengths. -/
def Bounds.volume (bd : Bounds) : Nat :=
  bd.val.r.len * bd.val.g.len * bd.val.b.len

/-- `Bounds::longest_dimension` from median_cut.rs: the if/else-if chain with
ties resolved in the order R, then G, then B. -/
def Bounds.longestDimension (bd : Bounds) : Dimension :=
  let r := bd.val.r.len
  let g := bd.val.g.len
  let b := bd.val.b.len
  if r ≥ g ∧ r ≥ b then Dimension.R
  else if g ≥ r ∧ g ≥ b then Dimension.G
  else Dimension.B

/-- `struct VBox { bounds, colors, population }` from median_cut.rs; the mutable
slice of distinct colors is modelled as the list it holds. -/
structure VBox where
  bounds : Bounds
  colors : List (Rgb Nat)
  population : Nat
deriving DecidableEq, Repr

/-- `VBox::from_colors` from median_cut.rs: seed bounds and population from the
first color, then fold the rest.  The source calls `iter.next().unwrap()`, which
panics on an empty slice; that panic is the `none` case here. -/
def VBox.fromColors (colors : List (Rgb Nat)) (histogram : Histogram) : Option VBox :=
  match colors with
  | [] => none
  | firstColor :: rest =>
    some
      { bounds := rest.foldl Bounds.extend (Bounds.new firstColor)
        colors := colors
        population := rest.foldl (fun acc c => acc + histogram.countOf c)
          (histogram.countOf firstColor) }

/-- `struct Color { color: Rgb<u8>, population: usize }` from quantizer/mod.rs. -/
structure Color where
  color : Rgb Nat
  population : Nat
deriving DecidableEq, Repr

/-- `VBox::average` from median_cut.rs.  The per-channel accumulator is
`Σ count·to_color(q)`; the source divides it by the population in `f64` and
rounds (`(c as f64 / population as f64).round() as u8`).  For every value this
code can produce (`c ≤ 248·population`, `population < 2^32`) the `f64`
computation is exact, and rounding half away from zero on a non-negative
quotient equals the integer formula `(2c + p) / (2p)`; `p = 0` makes the Rust
expression `NaN as u8 = 0`, which this formula also yields. -/
def VBox.average (vbox : VBox) (histogram : Histogram) : Color :=
  let color := vbox.colors.foldl
    (fun (acc : Rgb Nat) c =>
      ⟨acc.r + histogram.countOf c * Quantized.toColor c.r,
       acc.g + histogram.countOf c * Quantized.toColor c.g,
       acc.b + histogram.countOf c * Quantized.toColor c.b⟩)
    ⟨0, 0, 0⟩
  { color := color.map (fun c => (2 * c + vbox.population) / (2 * vbox.population))
    population := vbox.population }

/-- `VBox::volume` from median_cut.rs. -/
def VBox.volume (vbox : VBox) : Nat :=
  vbox.bounds.volume

/-- Lexicographic comparison of `(Nat, Nat, Nat)` keys: the boolean version of
`[x1,x2,x3].cmp(&[y1,y2,y3]) != Greater` used by `sort_unstable_by`. -/
def lexLe3 (x y : Nat × Nat × Nat) : Bool :=
  decide (x.1 < y.1) ||
    (decide (x.1 = y.1) &&
      (decide (x.2.1 < y.2.1) || (decide (x.2.1 = y.2.1) && decide (x.2.2 ≤ y.2.2))))

/-- The three sort keys of `VBox::split`: for dimension R compare `[r,g,b]`,
for G compare `[g,r,b]`, for B compare `[b,r,g]`. -/
def dimKey (d : Dimension) (c : Rgb Nat) : Nat × Nat × Nat :=
  match d with
  | Dimension.R => (c.r, c.g, c.b)
  | Dimension.G => (c.g, c.r, c.b)
  | Dimension.B => (c.b, c.r, c.g)

/-- Insertion into a sorted list, the worker of `sortBy`. -/
def insertSorted {α : Type} (le : α → α → Bool) (x : α) : List α → List α
  | [] => [x]
  | y :: ys => if le x y then x :: y :: ys else y :: insertSorted le x ys

/-- A structurally recursive insertion sort. -/
def sortBy {α : Type} (le : α → α → Bool) : List α → List α
  | [] => []
  | x :: xs => insertSorted le x (sortBy le xs)

/-- The in-place `sort_unstable_by` of `VBox::split`.  The comparison keys are
total orders and the distinct colors of a box never compare equal, so every
comparison sort produces the same list; the std `sort_unstable_by` is external
and is modelled with insertion sort. -/
def sortColors (d : Dimension) (colors : List (Rgb Nat)) : List (Rgb Nat) :=
  sortBy (fun a b => lexLe3 (dimKey d a) (dimKey d b)) colors

/-- The local `sorted` state of `VBox::split`: the slice after the in-place
`sort_unstable_by` keyed by the longest dimension. -/
def VBox.sortedColors (vbox : VBox) : List (Rgb Nat) :=
  sortColors vbox.bounds.longestDimension vbox.colors

/-- The local `split_point` of `VBox::split`: `split_point_population` is
`population / 2`; the index is `position(count ≥ P).map(+1).unwrap_or(len)`,
then `.min(len - 1).max(1)`. -/
def VBox.splitPoint (vbox : VBox) (histogram : Histogram) : Nat :=
  let sorted := vbox.sortedColors
  let splitPointPopulation := vbox.population / 2
  ((((sorted.findIdx? fun c => splitPointPopulation ≤ histogram.countOf c).map
      (fun v => v + 1)).getD sorted.length).min (sorted.length - 1)).max 1

/-- `VBox::split` from median_cut.rs: sort by the longest dimension, find the
split point, split the slice, rebuild both boxes.  `from_colors` of an empty
left part would panic (`none` here); the right part is dropped when empty. -/
def VBox.split (vbox : VBox) (histogram : Histogram) : Option (VBox × Option VBox) :=
  match VBox.fromColors (vbox.sortedColors.take (vbox.splitPoint histogram)) histogram with
  | none => none
  | some a =>
    match (some (vbox.sortedColors.drop (vbox.splitPoint histogram))).filter
        (fun c => !c.isEmpty) with
    | none => some (a, none)
    | some bColors =>
      match VBox.fromColors bColors histogram with
      | none => none
      | some b => some (a, some b)

/-- `PopulationExtractor::extract` from median_cut.rs. -/
def keyPopulation (vbox : VBox) : Nat :=
  vbox.population

/-- `PopulationVolumeExtractor::extract` from median_cut.rs. -/
def keyPopulationVolume (vbox : VBox) : Nat :=
  vbox.population * vbox.volume

/-- Model of `std::collections::BinaryHeap::push`: the heap is kept as a list
sorted by decreasing key, so that the head is always a maximal element, which
is the contract of the external `BinaryHeap` collaborator. -/
def heapPush (key : VBox → Nat) : List VBox → VBox → List VBox
  | [], v => [v]
  | x :: xs, v => if key v ≤ key x then x :: heapPush key xs v else v :: x :: xs

/-- Model of `BinaryHeap::pop`: remove a maximal element; `none` on the empty
heap (the source calls `.unwrap()` on it). -/
def heapPop : List VBox → Option (VBox × List VBox)
  | [] => none
  | x :: xs => some (x, xs)

/-- Model of the re-keying transition in `MedianCut::quantize`: the source
transmutes `BinaryHeap<SortedVBox<PopulationExtractor>>` into a `Vec`, then
rebuilds `BinaryHeap<SortedVBox<PopulationVolumeExtractor>>` from it; the
contents are unchanged, only the ordering key changes. -/
def heapify (key : VBox → Nat) (q : List VBox) : List VBox :=
  q.foldl (heapPush key) []

/-- The `while queue.len() < target` loop of `fn split_boxes`, driven by the
exact number of remaining iterations (`target - queue.len()`) as structural
fuel: every iteration that pushes two boxes grows the queue by one, so the
fuel falls by exactly one, and fuel zero is exactly `queue.len() >= target`.
Pop the largest box (the head of the sorted heap model), split it, push the
pieces; stop early when a split produces no second box.  The
`queue.pop().unwrap()` panic and the panic inside `split` are `none`. -/
def splitBoxesLoop (key : VBox → Nat) (histogram : Histogram) :
    Nat → List VBox → Option (List VBox)
  | 0, q => some q
  | fuel + 1, q =>
    match q with
    | [] => none
    | vbox :: rest =>
      match vbox.split histogram with
      | none => none
      | some (vbox1, some vbox2) =>
        splitBoxesLoop key histogram fuel (heapPush key (heapPush key rest vbox1) vbox2)
      | some (vbox1, none) => some (heapPush key rest vbox1)

/-- `fn split_boxes` from median_cut.rs. -/
def splitBoxes (key : VBox → Nat) (q : List VBox) (histogram : Histogram)
    (target : Nat) : Option (List VBox) :=
  splitBoxesLoop key histogram (target - q.length) q

/-- `struct Range` of Rust (`start..end`); the field `end` is called `stop`. -/
structure RangeN where
  start : Nat
  stop : Nat
deriving DecidableEq, Repr

/-- Rust `Range::contains`. -/
def RangeN.containsN (r : RangeN) (x : Nat) : Bool :=
  decide (r.start ≤ x) && decide (x < r.stop)

/-- `enum Error` from quantizer/mod.rs. -/
inductive Error where
  | QualityOutOfBounds : Nat → RangeN → Error
  | ColorCountOutOfBounds : Nat → RangeN → Error
deriving DecidableEq, Repr

/-- `const COLOR_RANGE: Range<usize> = 2..257` from median_cut.rs. -/
def COLOR_RANGE : RangeN :=
  ⟨2, 257⟩

/-- The body of `MedianCut::quantize` after the histogram is built: initial box,
population-keyed phase to `(0.75 * colors as f64) as usize` (which is exactly
`3 * colors / 4`), re-keying, population-volume-keyed phase to `colors`, then
one `average` per surviving box. -/
def MedianCut.pipeline (histogram : Histogram) (distinctColors : List (Rgb Nat))
    (colors : Nat) : Option (List Color) :=
  match VBox.fromColors distinctColors histogram with
  | none => none
  | some vbox =>
    match splitBoxes keyPopulation (heapPush keyPopulation [] vbox) histogram
        (3 * colors / 4) with
    | none => none
    | some queue =>
      match splitBoxes keyPopulationVolume (heapify keyPopulationVolume queue) histogram
          colors with
      | none => none
      | some queue2 => some (queue2.map (fun b => b.average histogram))

/-- `MedianCut::quantize` from median_cut.rs.  The source first downscales the
image by `1.0 / quality` with the external `image::imageops::resize`
(Lanczos3); `image` here is that resampled pixel stream, and `quality` is never
range-checked by this quantizer.  The inner `Option` is `none` exactly when the
source would panic. -/
def MedianCut.quantize (image : List Rgba) (colors : Nat) (quality : Nat)
    (f : Rgba → Bool) : Except Error (Option (List Color)) :=
  if COLOR_RANGE.containsN colors = false then
    Except.error (Error.ColorCountOutOfBounds colors COLOR_RANGE)
  else
    let _ := quality
    Except.ok
      (MedianCut.pipeline (imageHistogram image f) (imageDistinctColors image f) colors)

/-- Worker for `uniqueBy`: keep the first item with each key, remembering the
keys already seen. -/
def uniqueByAux {α β : Type} [DecidableEq β] (key : α → β) (seen : List β) :
    List α → List α
  | [] => []
  | x :: xs =>
    if key x ∈ seen then uniqueByAux key seen xs
    else x :: uniqueByAux key (key x :: seen) xs

/-- itertools' `unique_by` adapter used by `Neu::quantize` (`.unique_by(|c| c.color)`). -/
def uniqueBy {α β : Type} [DecidableEq β] (key : α → β) (l : List α) : List α :=
  uniqueByAux key [] l

/-- `Neu::quantize` from neu.rs: the two range checks in source order (quality
first, colors second), then the palette assembled from the external
`color_quant::NeuQuant` (its `color_map_rgb`/`index_of` output, flat-mapped
with the pixel counts, is the external collaborator `ext` here), deduplicated
by color with `unique_by`. -/
def Neu.quantize (ext : List Color) (colors : Nat) (quality : Nat) :
    Except Error (List Color) :=
  if (RangeN.containsN ⟨1, 31⟩ quality) = false then
    Except.error (Error.QualityOutOfBounds quality ⟨1, 31⟩)
  else if (RangeN.containsN ⟨64, 266⟩ colors) = false then
    Except.error (Error.ColorCountOutOfBounds colors ⟨64, 266⟩)
  else
    Except.ok (uniqueBy Color.color ext)

/-- The `image` crate's `Pixel::to_rgb` on an RGBA pixel: the alpha channel is
dropped; used by `Palette::new` before the pixels reach the filter. -/
def Rgba.toRgb (p : Rgba) : Rgb Nat :=
  ⟨p.r.val, p.g.val, p.b.val⟩

/-- `fn is_boring_pixel` from palette.rs.  The source declares
`const MIN_ALPHA: u8 = 125` inside this function but never uses it: only the
near-white test is performed. -/
def is_boring_pixel (pixel : Rgb Nat) : Bool :=
  let interesting := !(decide (pixel.r > 250) && decide (pixel.g > 250) && decide (pixel.b > 250))
  !interesting

/-- The pixel filter applied by `Palette::new`
(`pixels_cleaned.retain(|i| !is_boring_pixel(&i))` after `to_rgb`):
`true` means the pixel is kept. -/
def passesPaletteFilter (p : Rgba) : Bool :=
  !is_boring_pixel p.toRgb

/-- Modelled from the spec: `MIN_NORMAL_LUMA` from the missing `src/settings.rs`
(role-window table, §4.6). -/
def MIN_NORMAL_LUMA : ℚ := 0.3

/-- Modelled from the spec: `TARGET_NORMAL_LUMA` from the missing `src/settings.rs`. -/
def TARGET_NORMAL_LUMA : ℚ := 0.5

/-- Modelled from the spec: `MAX_NORMAL_LUMA` from the missing `src/settings.rs`. -/
def MAX_NORMAL_LUMA : ℚ := 0.7

/-- Modelled from the spec: `MIN_LIGHT_LUMA` from the missing `src/settings.rs`. -/
def MIN_LIGHT_LUMA : ℚ := 0.55

/-- Modelled from the spec: `TARGET_LIGHT_LUMA` from the missing `src/settings.rs`. -/
def TARGET_LIGHT_LUMA : ℚ := 0.74

/-- Modelled from the spec: `TARGET_DARK_LUMA` from the missing `src/settings.rs`. -/
def TARGET_DARK_LUMA : ℚ := 0.26

/-- Modelled from the spec: `MAX_DARK_LUMA` from the missing `src/settings.rs`. -/
def MAX_DARK_LUMA : ℚ := 0.45

/-- Modelled from the spec: `MIN_VIBRANT_SATURATION` from the missing `src/settings.rs`. -/
def MIN_VIBRANT_SATURATION : ℚ := 0.35

/-- Modelled from the spec: `TARGET_VIBRANT_SATURATION` from the missing `src/settings.rs`. -/
def TARGET_VIBRANT_SATURATION : ℚ := 1

/-- Modelled from the spec: `TARGET_MUTED_SATURATION` from the missing `src/settings.rs`. -/
def TARGET_MUTED_SATURATION : ℚ := 0.3

/-- Modelled from the spec: `MAX_MUTED_SATURATION` from the missing `src/settings.rs`. -/
def MAX_MUTED_SATURATION : ℚ := 0.4

/-- Modelled from the spec: `WEIGHT_SATURATION` from the missing `src/settings.rs`. -/
def WEIGHT_SATURATION : ℚ := 3

/-- Modelled from the spec: `WEIGHT_LUMA` from the missing `src/settings.rs`. -/
def WEIGHT_LUMA : ℚ := 6

/-- Modelled from the spec: `WEIGHT_POPULATION` from the missing `src/settings.rs`. -/
def WEIGHT_POPULATION : ℚ := 1

/-- Modelled from the spec: the external hsl crate's `HSL` value (hue in
degrees, saturation and lightness in `[0,1]`), in exact rational arithmetic. -/
structure HSL where
  h : ℚ
  s : ℚ
  l : ℚ
deriving DecidableEq

/-- Modelled from the spec: the external hsl crate's `HSL::from_rgb`, the
standard RGB→HSL conversion. -/
def HSL.fromRgb (c : Rgb Nat) : HSL :=
  let r : ℚ := (c.r : ℚ) / 255
  let g : ℚ := (c.g : ℚ) / 255
  let b : ℚ := (c.b : ℚ) / 255
  let mx := max r (max g b)
  let mn := min r (min g b)
  let l := (mx + mn) / 2
  let delta := mx - mn
  let s := if delta = 0 then 0 else delta / (1 - |2 * l - 1|)
  let h :=
    if delta = 0 then 0
    else if mx = r then 60 * ((g - b) / delta) + (if g < b then 360 else 0)
    else if mx = g then 60 * ((b - r) / delta) + 120
    else 60 * ((r - g) / delta) + 240
  ⟨h, s, l⟩

/-- Modelled from the spec: the saturating `f64 as u8` conversion after the
`.round()` the hsl crate performs per channel of `to_rgb`. -/
def ratToU8 (q : ℚ) : Nat :=
  min 255 (round (255 * q)).toNat

/-- Modelled from the spec: the external hsl crate's `HSL::to_rgb`, the
standard HSL→RGB conversion (chroma, secondary component by hue sector,
match lightness, scale to `u8`). -/
def HSL.toRgb (x : HSL) : Rgb Nat :=
  let c := (1 - |2 * x.l - 1|) * x.s
  let hp := x.h / 60
  let xval := c * (1 - |hp - 2 * (⌊hp / 2⌋ : ℚ) - 1|)
  let m := x.l - c / 2
  let rgb1 : ℚ × ℚ × ℚ :=
    if hp < 1 then (c, xval, 0)
    else if hp < 2 then (xval, c, 0)
    else if hp < 3 then (0, c, xval)
    else if hp < 4 then (0, xval, c)
    else if hp < 5 then (xval, 0, c)
    else (c, 0, xval)
  ⟨ratToU8 (rgb1.1 + m), ratToU8 (rgb1.2.1 + m), ratToU8 (rgb1.2.2 + m)⟩

/-- `struct Vibrancy` from vibrant.rs: six optional role colors. -/
structure Vibrancy where
  primary : Option (Rgb Nat)
  dark : Option (Rgb Nat)
  light : Option (Rgb Nat)
  muted : Option (Rgb Nat)
  dark_muted : Option (Rgb Nat)
  light_muted : Option (Rgb Nat)
deriving DecidableEq, Repr

/-- `Vibrancy::default()`: every slot `None`. -/
def Vibrancy.empty : Vibrancy :=
  ⟨none, none, none, none, none, none⟩

/-- `Vibrancy::color_already_set` from vibrant.rs. -/
def Vibrancy.colorAlreadySet (v : Vibrancy) (color : Rgb Nat) : Bool :=
  let c := some color
  decide (v.primary = c) || decide (v.dark = c) || decide (v.light = c) ||
    decide (v.muted = c) || decide (v.dark_muted = c) || decide (v.light_muted = c)

/-- `struct MTM<T> { min, target, max }` from vibrant.rs. -/
structure MTM where
  min : ℚ
  target : ℚ
  max : ℚ
deriving DecidableEq

/-- `fn invert_diff` from vibrant.rs. -/
def invert_diff (val target_val : ℚ) : ℚ :=
  1 - |val - target_val|

/-- `fn weighted_mean` from vibrant.rs: fold accumulating `Σ val·weight` and
`Σ weight`, then divide. -/
def weighted_mean (vals : List (ℚ × ℚ)) : ℚ :=
  let p := vals.foldl (fun (acc : ℚ × ℚ) vw => (acc.1 + vw.1 * vw.2, acc.2 + vw.2)) (0, 0)
  p.1 / p.2

/-- `fn create_comparison_value` from vibrant.rs. -/
def create_comparison_value (sat target_sat luma target_uma population max_population : ℚ) : ℚ :=
  weighted_mean
    [(invert_diff sat target_sat, WEIGHT_SATURATION),
     (invert_diff luma target_uma, WEIGHT_LUMA),
     (population / max_population, WEIGHT_POPULATION)]

/-- `Vibrancy::find_color_variation` from vibrant.rs.  The `HashMap` of pixel
counts is modelled as the list of counts per palette index
(`get(&index).unwrap_or(&0)` is `(get? index).getD 0`); its
`values().max().unwrap()` panics only on an empty map, which `Palette::new`
never produces, so the empty case is absorbed by `getD 0`.  The fold carries
the running `max`/`max_value` pair of the source loop. -/
def Vibrancy.findColorVariation (v : Vibrancy) (palette : List (Rgb Nat))
    (pixelCounts : List Nat) (luma saturation : MTM) : Option (Rgb Nat) :=
  let completePopulation := pixelCounts.max?.getD 0
  (palette.enum.foldl
    (fun (acc : Option (Rgb Nat) × ℚ) iswatch =>
      let hsl := HSL.fromRgb iswatch.2
      if saturation.min ≤ hsl.s ∧ hsl.s ≤ saturation.max ∧ luma.min ≤ hsl.l ∧
          hsl.l ≤ luma.max ∧ ¬ v.colorAlreadySet iswatch.2 then
        let population : ℚ := ((pixelCounts.get? iswatch.1).getD 0 : Nat)
        if population = 0 then acc
        else
          let value := create_comparison_value hsl.s saturation.target hsl.l luma.target
            population (completePopulation : ℚ)
          if acc.1 = none ∨ acc.2 < value then (some iswatch.2, value) else acc
      else acc)
    (none, 0)).1

/-- `fn generate_varation_colors` from vibrant.rs: assign the six roles in
source order (primary, light, dark, muted, light_muted, dark_muted), each
search seeing the slots already assigned. -/
def generate_varation_colors (palette : List (Rgb Nat)) (pixelCounts : List Nat) :
    Vibrancy :=
  let v0 := Vibrancy.empty
  let v1 := { v0 with
    primary := v0.findColorVariation palette pixelCounts
      ⟨MIN_NORMAL_LUMA, TARGET_NORMAL_LUMA, MAX_NORMAL_LUMA⟩
      ⟨MIN_VIBRANT_SATURATION, TARGET_VIBRANT_SATURATION, 1⟩ }
  let v2 := { v1 with
    light := v1.findColorVariation palette pixelCounts
      ⟨MIN_LIGHT_LUMA, TARGET_LIGHT_LUMA, 1⟩
      ⟨MIN_VIBRANT_SATURATION, TARGET_VIBRANT_SATURATION, 1⟩ }
  let v3 := { v2 with
    dark := v2.findColorVariation palette pixelCounts
      ⟨0, TARGET_DARK_LUMA, MAX_DARK_LUMA⟩
      ⟨MIN_VIBRANT_SATURATION, TARGET_VIBRANT_SATURATION, 1⟩ }
  let v4 := { v3 with
    muted := v3.findColorVariation palette pixelCounts
      ⟨MIN_NORMAL_LUMA, TARGET_NORMAL_LUMA, MAX_NORMAL_LUMA⟩
      ⟨0, TARGET_MUTED_SATURATION, MAX_MUTED_SATURATION⟩ }
  let v5 := { v4 with
    light_muted := v4.findColorVariation palette pixelCounts
      ⟨MIN_LIGHT_LUMA, TARGET_LIGHT_LUMA, 1⟩
      ⟨0, TARGET_MUTED_SATURATION, MAX_MUTED_SATURATION⟩ }
  { v5 with
    dark_muted := v5.findColorVariation palette pixelCounts
      ⟨0, TARGET_DARK_LUMA, MAX_DARK_LUMA⟩
      ⟨0, TARGET_MUTED_SATURATION, MAX_MUTED_SATURATION⟩ }

/-- The lightness override of `generate_empty_swatches`: convert to HSL, set
`l`, convert back. -/
def overrideLuma (c : Rgb Nat) (l : ℚ) : Rgb Nat :=
  HSL.toRgb { HSL.fromRgb c with l := l }

/-- The saturation override of `generate_empty_swatches`: convert to HSL, set
`s`, convert back. -/
def overrideSat (c : Rgb Nat) (s : ℚ) : Rgb Nat :=
  HSL.toRgb { HSL.fromRgb c with s := s }

/-- `fn generate_empty_swatches` from vibrant.rs: the sequential if-chain that
synthesizes missing roles from related ones (the `is_some`/`unwrap` pairs are
`Option.map` here). -/
def generate_empty_swatches (v0 : Vibrancy) : Vibrancy :=
  let v1 :=
    if v0.primary = none ∧ v0.dark = none ∧ v0.light = none then
      let va :=
        if v0.dark = none ∧ ¬ v0.dark_muted = none then
          { v0 with dark := v0.dark_muted.map (fun c => overrideLuma c TARGET_DARK_LUMA) }
        else v0
      if va.light = none ∧ ¬ va.light_muted = none then
        { va with light := va.light_muted.map (fun c => overrideLuma c TARGET_LIGHT_LUMA) }
      else va
    else v0
  let v2 :=
    if v1.primary = none ∧ ¬ v1.dark = none then
      { v1 with primary := v1.dark.map (fun c => overrideLuma c TARGET_NORMAL_LUMA) }
    else if v1.primary = none ∧ ¬ v1.light = none then
      { v1 with primary := v1.light.map (fun c => overrideLuma c TARGET_NORMAL_LUMA) }
    else v1
  let v3 :=
    if v2.dark = none ∧ ¬ v2.primary = none then
      { v2 with dark := v2.primary.map (fun c => overrideLuma c TARGET_DARK_LUMA) }
    else v2
  let v4 :=
    if v3.light = none ∧ ¬ v3.primary = none then
      { v3 with light := v3.primary.map (fun c => overrideLuma c TARGET_LIGHT_LUMA) }
    else v3
  let v5 :=
    if v4.muted = none ∧ ¬ v4.primary = none then
      { v4 with muted := v4.primary.map (fun c => overrideSat c TARGET_MUTED_SATURATION) }
    else v4
  let v6 :=
    if v5.dark_muted = none ∧ ¬ v5.dark = none then
      { v5 with dark_muted := v5.dark.map (fun c => overrideSat c TARGET_MUTED_SATURATION) }
    else v5
  if v6.light_muted = none ∧ ¬ v6.light = none then
    { v6 with light_muted := v6.light.map (fun c => overrideSat c TARGET_MUTED_SATURATION) }
  else v6

/-- The vibrancy construction of `Vibrancy::new`, from the palette produced by
the upstream quantization (`Palette::new` and the image pipeline are external
to this construction): the selection pass followed by the fill-empty pass. -/
def vibrancyFromPalette (palette : List (Rgb Nat)) (pixelCounts : List Nat) : Vibrancy :=
  generate_empty_swatches (generate_varation_colors palette pixelCounts)

/-- The six role slots of a `Vibrancy`, in declaration order. -/
def Vibrancy.slots (v : Vibrancy) : List (Option (Rgb Nat)) :=
  [v.primary, v.dark, v.light, v.muted, v.dark_muted, v.light_muted]

/-- Total population of a queue of boxes. -/
def sumPop (q : List VBox) : Nat :=
  (q.map VBox.population).sum

/-- The queue invariant of the split loop: every box has a non-empty slice and
its population field sums the histogram counts of its slice. -/
def GoodQueue (hist : Histogram) (q : List VBox) : Prop :=
  ∀ b ∈ q, b.colors ≠ [] ∧ b.population = (b.colors.map hist.countOf).sum

/-- Recognizer for `Error::ColorCountOutOfBounds` results. -/
def isColorCountError {α : Type} : Except Error α → Bool
  | Except.error (Error.ColorCountOutOfBounds _ _) => true
  | _ => false

/-- Recognizer for `Error::QualityOutOfBounds` results. -/
def isQualityError {α : Type} : Except Error α → Bool
  | Except.error (Error.QualityOutOfBounds _ _) => true
  | _ => false

/-- Recognizer for `Ok` results. -/
def isOkResult {α : Type} : Except Error α → Bool
  | Except.ok _ => true
  | _ => false

/-- The pixel stream refuting the "exactly `N`" half of C4: one heavy quantized
color `(0,0,0)` and three light ones along the blue axis. -/
def cex4Pixels : List Rgba :=
  List.replicate 10 ⟨0, 0, 0, 255⟩ ++ [⟨0, 0, 8, 255⟩, ⟨0, 0, 16, 255⟩, ⟨0, 0, 24, 255⟩]

/-- The pixel stream refuting the uniqueness half of C3 for `MedianCut`: two
boxes whose weighted averages both round to `(128, 8, 0)`. -/
def cex3Pixels : List Rgba :=
  List.replicate 3 ⟨120, 120, 0, 255⟩ ++ List.replicate 45 ⟨128, 0, 0, 255⟩ ++
    List.replicate 16 ⟨128, 8, 0, 255⟩ ++ [⟨136, 0, 0, 255⟩] ++
    List.replicate 17 ⟨248, 0, 8, 255⟩

/-- The split index exactly as the spec words it: with `P = population / 2`,
`k` is `i + 1` for the first index `i` with count `≥ P` (else the slice
length), then clamped into `[1, len - 1]`. -/
def specSplitIndex (hist : Histogram) (population : Nat)
    (sorted : List (Rgb Nat)) : Nat :=
  let P := population / 2
  let k := match sorted.findIdx? (fun c => P ≤ hist.countOf c) with
    | some i => i + 1
    | none => sorted.length
  max 1 (min (sorted.length - 1) k)

/-- A concrete histogram for exercising `claim_c2_split_index`. -/
def c2Hist : Histogram :=
  ⟨fun i => if i = 0 then 3 else if i = 1 then 1 else 0⟩

/-- A two-color box over `c2Hist`. -/
def c2Box : VBox :=
  ⟨⟨⟨⟨0, 0⟩, ⟨0, 0⟩, ⟨0, 1⟩⟩⟩, [⟨0, 0, 0⟩, ⟨0, 0, 1⟩], 4⟩

/-- A single-color box over `c2Hist`. -/
def c2Box1 : VBox :=
  ⟨⟨⟨⟨0, 0⟩, ⟨0, 0⟩, ⟨0, 0⟩⟩⟩, [⟨0, 0, 0⟩], 3⟩

/-- A concrete histogram for exercising `claim_c5_weighted_average`. -/
def c5Hist : Histogram :=
  ⟨fun i => if i = 0 then 1 else if i = 2 then 3 else 0⟩

/-- A two-color box over `c5Hist` with matching population. -/
def c5Box : VBox :=
  ⟨⟨⟨⟨0, 0⟩, ⟨0, 0⟩, ⟨0, 2⟩⟩⟩, [⟨0, 0, 0⟩, ⟨0, 0, 2⟩], 4⟩

/-- The loop body of `Vibrancy::find_color_variation`, named so that the fold
can be reasoned about. -/
def findStep (v : Vibrancy) (pixelCounts : List Nat) (luma saturation : MTM)
    (completePopulation : Nat) (acc : Option (Rgb Nat) × ℚ) (iswatch : Nat × Rgb Nat) :
    Option (Rgb Nat) × ℚ :=
  let hsl := HSL.fromRgb iswatch.2
  if saturation.min ≤ hsl.s ∧ hsl.s ≤ saturation.max ∧ luma.min ≤ hsl.l ∧
      hsl.l ≤ luma.max ∧ ¬ v.colorAlreadySet iswatch.2 then
    let population : ℚ := ((pixelCounts.get? iswatch.1).getD 0 : Nat)
    if population = 0 then acc
    else
      let value := create_comparison_value hsl.s saturation.target hsl.l luma.target
        population (completePopulation : ℚ)
      if acc.1 = none ∨ acc.2 < value then (some iswatch.2, value) else acc
  else acc

/-- Pushing onto the heap model grows it by one element. -/
theorem heapPush_length (key : VBox → Nat) (l : List VBox) (v : VBox) :
    (heapPush key l v).length = l.length + 1 := by
  induction l with
  | nil => simp [heapPush]
  | cons y ys ih => simp only [heapPush]; split <;> simp [ih]

/-- Bitwise or of a shifted value with a value that fits below the shift is
addition. -/
theorem two_pow_mul_lor {k a b : Nat} (hb : b < 2 ^ k) :
    2 ^ k * a ||| b = 2 ^ k * a + b := by
  induction k generalizing b with
  | zero =>
    have hb0 : b = 0 := by omega
    subst hb0; simp
  | succ k ih =>
    have h2 : 2 ^ (k + 1) * a = Nat.bit false (2 ^ k * a) := by
      simp only [Nat.bit_val, Bool.toNat_false]; ring
    have hb' : b >>> 1 < 2 ^ k := by
      rw [Nat.shiftRight_eq_div_pow]
      have hp : (2 : Nat) ^ (k + 1) = 2 ^ k * 2 := by ring
      have hp1 : (2 : Nat) ^ 1 = 2 := by norm_num
      rw [hp1]
      omega
    have key : ∀ (bb : Bool) (b' : Nat), b' < 2 ^ k →
        2 ^ (k + 1) * a ||| Nat.bit bb b' = 2 ^ (k + 1) * a + Nat.bit bb b' := by
      intro bb b' hlt
      rw [h2, Nat.lor_bit, ih hlt]
      cases bb <;>
        simp only [Nat.bit_val, Bool.toNat_false, Bool.toNat_true, Bool.false_or] <;>
        ring
    have hres := key (decide (b % 2 = 1)) (b >>> 1) hb'
    rwa [Nat.bit_decide_mod_two_eq_one_shiftRight_one] at hres

/-- The packed color index in arithmetic form. -/
theorem asColorIndex_eq (c : Rgb Nat) (hg : c.g < 32) (hb : c.b < 32) :
    c.asColorIndex = 1024 * c.r + 32 * c.g + c.b := by
  show (c.r <<< (2 * BITS)) ||| (c.g <<< BITS) ||| c.b = _
  have e1 : c.r <<< (2 * BITS) = 2 ^ 10 * c.r := by
    rw [Nat.shiftLeft_eq, show 2 * BITS = 10 from rfl]; ring
  have e2 : c.g <<< BITS = 2 ^ 5 * c.g := by
    rw [Nat.shiftLeft_eq, show BITS = 5 from rfl]; ring
  rw [e1, e2, Nat.lor_assoc,
    two_pow_mul_lor (show c.b < 2 ^ 5 by omega),
    two_pow_mul_lor (show 2 ^ 5 * c.g + c.b < 2 ^ 10 by omega)]
  ring

/-- Packing a quantized color keeps the index below the bucket count. -/
theorem asColorIndex_lt (c : Rgb Nat) (hr : c.r < 32) (hg : c.g < 32) (hb : c.b < 32) :
    c.asColorIndex < 32768 := by
  rw [asColorIndex_eq c hg hb]; omega

/-- The bucket decoding in arithmetic form. -/
theorem indexColor_eq (i : Nat) :
    indexColor i = ⟨i / 1024, i / 32 % 32, i % 32⟩ := by
  show (⟨i >>> (2 * BITS), (i >>> BITS) &&& (0xFF >>> (8 - BITS)),
      i &&& (0xFF >>> (8 - BITS))⟩ : Rgb Nat) = _
  have hmask : (0xFF >>> (8 - BITS)) = 2 ^ 5 - 1 := by decide
  have h1 : i >>> (2 * BITS) = i / 1024 := by
    rw [Nat.shiftRight_eq_div_pow, show 2 * BITS = 10 from rfl]
  have h2 : i >>> BITS = i / 32 := by
    rw [Nat.shiftRight_eq_div_pow, show BITS = 5 from rfl]
  rw [hmask, h1, h2, Nat.and_pow_two_sub_one_eq_mod, Nat.and_pow_two_sub_one_eq_mod]

/-- Decoding after packing recovers a quantized color. -/
theorem indexColor_asColorIndex (c : Rgb Nat) (hg : c.g < 32) (hb : c.b < 32) :
    indexColor c.asColorIndex = c := by
  rw [asColorIndex_eq c hg hb, indexColor_eq]
  obtain ⟨r, g, b⟩ := c
  dsimp only at hg hb ⊢
  simp only [Rgb.mk.injEq]
  omega

/-- Packing after decoding recovers an in-range bucket index. -/
theorem asColorIndex_indexColor (i : Nat) (_hi : i < 32768) :
    (indexColor i).asColorIndex = i := by
  rw [indexColor_eq]
  rw [asColorIndex_eq _ (show i / 32 % 32 < 32 by omega) (show i % 32 < 32 by omega)]
  show 1024 * (i / 1024) + 32 * (i / 32 % 32) + i % 32 = i
  omega

/-- A quantized channel value is below 32. -/
theorem quantizedChannel_lt (x : Fin 256) : Quantized.fromColor x.val < 32 := by
  show x.val >>> (8 - BITS) < 32
  rw [Nat.shiftRight_eq_div_pow, show 8 - BITS = 3 from rfl]
  have hx := x.isLt
  have h8 : (2 : Nat) ^ 3 = 8 := by norm_num
  rw [h8]
  omega

/-- A quantized pixel has all channels below 32. -/
theorem quantizePixel_lt (p : Rgba) :
    (quantizePixel p).r < 32 ∧ (quantizePixel p).g < 32 ∧ (quantizePixel p).b < 32 :=
  ⟨quantizedChannel_lt p.r, quantizedChannel_lt p.g, quantizedChannel_lt p.b⟩

theorem bucketCount_eq : (1 <<< (3 * BITS)) = 32768 := by
  decide

/-- A bucket of an insert chain counts the occurrences of its index. -/
theorem foldl_insert_buckets (cs : List (Rgb Nat)) (h : Histogram) (i : Nat) :
    (cs.foldl Histogram.insert h).buckets i =
      h.buckets i + (cs.map Rgb.asColorIndex).count i := by
  induction cs generalizing h with
  | nil => simp
  | cons c cs ih =>
    simp only [List.foldl_cons, List.map_cons]
    rw [ih]
    show (if i = c.asColorIndex then h.buckets i + 1 else h.buckets i) + _ = _
    rw [List.count_cons]
    by_cases hic : i = c.asColorIndex
    · simp [hic]; omega
    · have : ¬ (c.asColorIndex == i) = true := by
        simp [Ne.symm hic]
      simp [hic, this]

theorem histList_buckets (cs : List (Rgb Nat)) (i : Nat) :
    (histList cs).buckets i = (cs.map Rgb.asColorIndex).count i := by
  rw [histList, foldl_insert_buckets]
  simp [Histogram.new]

/-- Distributing a sum over a pointwise sum of functions. -/
theorem sum_map_add (l : List Nat) (f g : Nat → Nat) :
    (l.map (fun i => f i + g i)).sum = (l.map f).sum + (l.map g).sum := by
  induction l with
  | nil => simp
  | cons x l ih => simp [ih]; omega

/-- A list sums to zero when every element it maps to is zero. -/
theorem sum_map_zero {α : Type} (l : List α) (f : α → Nat) (h : ∀ x ∈ l, f x = 0) :
    (l.map f).sum = 0 := by
  induction l with
  | nil => simp
  | cons x l ih =>
    simp only [List.map_cons, List.sum_cons]
    rw [h x (by simp), ih (fun y hy => h y (by simp [hy]))]

/-- Summing the indicator of a point over `List.range n`. -/
theorem sum_range_indicator (x n : Nat) (hx : x < n) :
    ((List.range n).map (fun i => if x = i then 1 else 0)).sum = 1 := by
  induction n with
  | zero => omega
  | succ n ih =>
    rw [List.range_succ, List.map_append, List.sum_append]
    by_cases hxn : x < n
    · rw [ih hxn]
      have hne : x ≠ n := by omega
      simp [hne]
    · have hxeq : x = n := by omega
      subst hxeq
      rw [sum_map_zero _ _ (by
        intro y hy
        have : y < x := List.mem_range.mp hy
        have hne : x ≠ y := by omega
        simp [hne])]
      simp

/-- Summing the count of each index over `List.range n` recovers the length. -/
theorem sum_range_count (is : List Nat) (n : Nat) (h : ∀ x ∈ is, x < n) :
    ((List.range n).map (fun i => is.count i)).sum = is.length := by
  induction is with
  | nil => simp
  | cons x is ih =>
    have hmap : (List.range n).map (fun i => (x :: is).count i) =
        (List.range n).map (fun i => is.count i + if x = i then 1 else 0) := by
      apply List.map_congr_left
      intro i _
      rw [List.count_cons]
      by_cases hxi : x = i
      · simp [hxi]
      · have : ¬ (x == i) = true := by simp [hxi]
        simp [hxi, this]
    rw [hmap, sum_map_add, ih (fun y hy => h y (by simp [hy])),
      sum_range_indicator x n (h x (by simp))]
    simp

/-- Filtering out the zero buckets does not change the bucket sum. -/
theorem sum_filter_ne_zero (l : List Nat) (f : Nat → Nat) :
    ((l.filter (fun i => f i != 0)).map f).sum = (l.map f).sum := by
  induction l with
  | nil => simp
  | cons x l ih =>
    by_cases hx : f x = 0
    · simp [List.filter_cons, hx, ih]
    · have : (f x != 0) = true := by simp [hx]
      simp [List.filter_cons, this, ih]

/-- A left fold adding mapped values equals the initial value plus the sum. -/
theorem foldl_add_sum {α : Type} (l : List α) (g : α → Nat) (init : Nat) :
    l.foldl (fun acc c => acc + g c) init = init + (l.map g).sum := by
  induction l generalizing init with
  | nil => simp
  | cons x l ih => simp [ih]; omega

/-- The buckets of the image histogram count quantized-pixel indices. -/
theorem imageHistogram_buckets (image : List Rgba) (f : Rgba → Bool) (i : Nat) :
    (imageHistogram image f).buckets i =
      (((image.filter f).map quantizePixel).map Rgb.asColorIndex).count i := by
  rw [imageHistogram, histList_buckets]

/-- A filter of `List.range n` is any strictly sorted list with the same
membership below `n`. -/
theorem range_filter_eq (n : Nat) (p : Nat → Bool) (S : List Nat)
    (hS : S.Pairwise (· < ·)) (hlt : ∀ x ∈ S, x < n)
    (hmem : ∀ i, i < n → (p i = true ↔ i ∈ S)) :
    (List.range n).filter p = S := by
  haveI : IsAntisymm Nat (· < ·) := ⟨fun a b h1 h2 => absurd h1 (by omega)⟩
  apply List.eq_of_perm_of_sorted ?_ ?_ hS
  · rw [List.perm_ext_iff_of_nodup ((List.nodup_range n).filter p)
      (hS.imp (fun hab => Nat.ne_of_lt hab))]
    intro i
    rw [List.mem_filter, List.mem_range]
    constructor
    · rintro ⟨hin, hp⟩
      exact (hmem i hin).mp hp
    · intro hin
      exact ⟨hlt i hin, (hmem i (hlt i hin)).mpr hin⟩
  · exact (List.pairwise_lt_range n).filter p

/-- Every distinct color produced by the histogram has a non-zero count and
channels below 32. -/
theorem imageDistinctColors_mem (image : List Rgba) (f : Rgba → Bool) (c : Rgb Nat)
    (hc : c ∈ imageDistinctColors image f) :
    (imageHistogram image f).countOf c ≠ 0 ∧ c.r < 32 ∧ c.g < 32 ∧ c.b < 32 := by
  rw [imageDistinctColors] at hc
  obtain ⟨i, hi, hci⟩ := List.mem_map.mp hc
  have hir : i ∈ List.range (1 <<< (3 * BITS)) := (List.mem_filter.mp hi).1
  have hibound : i < 32768 := by
    have := List.mem_range.mp hir
    rwa [bucketCount_eq] at this
  have hne : (imageHistogram image f).buckets i ≠ 0 := by
    have := (List.mem_filter.mp hi).2
    simpa using this
  subst hci
  have hdec := indexColor_eq i
  refine ⟨?_, ?_, ?_, ?_⟩
  · show (imageHistogram image f).buckets (indexColor i).asColorIndex ≠ 0
    rwa [asColorIndex_indexColor i hibound]
  · rw [hdec]; show i / 1024 < 32; omega
  · rw [hdec]; show i / 32 % 32 < 32; omega
  · rw [hdec]; show i % 32 < 32; omega

/-- The index of every quantized pixel of the stream is below the bucket count. -/
theorem pixelIndex_lt (image : List Rgba) (f : Rgba → Bool) (i : Nat)
    (hi : i ∈ ((image.filter f).map quantizePixel).map Rgb.asColorIndex) : i < 32768 := by
  obtain ⟨c, hc, hci⟩ := List.mem_map.mp hi
  obtain ⟨p, _, hpc⟩ := List.mem_map.mp hc
  subst hci
  subst hpc
  obtain ⟨h1, h2, h3⟩ := quantizePixel_lt p
  exact asColorIndex_lt _ h1 h2 h3

/-- Summing the histogram counts over the distinct colors recovers the number
of pixels that passed the filter. -/
theorem imageDistinctColors_sum (image : List Rgba) (f : Rgba → Bool) :
    ((imageDistinctColors image f).map (imageHistogram image f).countOf).sum =
      (image.filter f).length := by
  rw [imageDistinctColors, List.map_map]
  have hcongr :
      ((List.range (1 <<< (3 * BITS))).filter
          (fun i => (imageHistogram image f).buckets i != 0)).map
        ((imageHistogram image f).countOf ∘ indexColor) =
      ((List.range (1 <<< (3 * BITS))).filter
          (fun i => (imageHistogram image f).buckets i != 0)).map
        (imageHistogram image f).buckets := by
    apply List.map_congr_left
    intro i hi
    have hibound : i < 32768 := by
      have := List.mem_range.mp (List.mem_filter.mp hi).1
      rwa [bucketCount_eq] at this
    show (imageHistogram image f).buckets (indexColor i).asColorIndex = _
    rw [asColorIndex_indexColor i hibound]
  rw [hcongr, sum_filter_ne_zero]
  have hpoint : (List.range (1 <<< (3 * BITS))).map (imageHistogram image f).buckets =
      (List.range (1 <<< (3 * BITS))).map
        (fun i => (((image.filter f).map quantizePixel).map Rgb.asColorIndex).count i) := by
    apply List.map_congr_left
    intro i _
    exact histList_buckets _ i
  rw [hpoint, bucketCount_eq,
    sum_range_count _ _ (fun x hx => pixelIndex_lt image f x hx)]
  simp

/-- The distinct-color list is empty exactly when no pixel passes the filter. -/
theorem imageDistinctColors_eq_nil_iff (image : List Rgba) (f : Rgba → Bool) :
    imageDistinctColors image f = [] ↔ image.filter f = [] := by
  constructor
  · intro hnil
    by_contra hne
    match himg : image.filter f with
    | [] => exact hne himg
    | p :: rest =>
      have hmem : quantizePixel p ∈ (image.filter f).map quantizePixel := by
        rw [himg]; simp
      have hidx : (quantizePixel p).asColorIndex ∈
          ((image.filter f).map quantizePixel).map Rgb.asColorIndex :=
        List.mem_map_of_mem _ hmem
      have hcount : (imageHistogram image f).buckets (quantizePixel p).asColorIndex ≠ 0 := by
        rw [imageHistogram_buckets]
        have := List.count_pos_iff.mpr hidx
        omega
      have hbound : (quantizePixel p).asColorIndex < 32768 :=
        pixelIndex_lt image f _ hidx
      have hinfilter : (quantizePixel p).asColorIndex ∈
          (List.range (1 <<< (3 * BITS))).filter
            (fun i => (imageHistogram image f).buckets i != 0) := by
        rw [List.mem_filter, List.mem_range, bucketCount_eq]
        refine ⟨hbound, by simpa using hcount⟩
      have : indexColor (quantizePixel p).asColorIndex ∈ imageDistinctColors image f := by
        rw [imageDistinctColors]
        exact List.mem_map_of_mem _ hinfilter
      rw [hnil] at this
      exact absurd this (List.not_mem_nil _)
  · intro hfil
    rw [imageDistinctColors]
    have hzero : ∀ i, (imageHistogram image f).buckets i = 0 := by
      intro i
      rw [imageHistogram_buckets, hfil]
      simp
    have : (List.range (1 <<< (3 * BITS))).filter
        (fun i => (imageHistogram image f).buckets i != 0) = [] := by
      apply List.filter_eq_nil_iff.mpr
      intro i _
      simp [hzero i]
    rw [this]
    simp

/-- `VBox::from_colors` on a non-empty slice: it succeeds, keeps the slice, and
its population is the sum of the histogram counts of the slice. -/
theorem fromColors_spec (colors : List (Rgb Nat)) (hist : Histogram)
    (h : colors ≠ []) :
    ∃ vb, VBox.fromColors colors hist = some vb ∧ vb.colors = colors ∧
      vb.population = (colors.map hist.countOf).sum := by
  match colors with
  | [] => exact absurd rfl h
  | c :: rest =>
    refine ⟨_, rfl, rfl, ?_⟩
    show rest.foldl (fun acc c => acc + hist.countOf c) (hist.countOf c) = _
    rw [foldl_add_sum]
    simp

theorem insertSorted_perm {α : Type} (le : α → α → Bool) (x : α) (l : List α) :
    (insertSorted le x l).Perm (x :: l) := by
  induction l with
  | nil => simp [insertSorted]
  | cons y ys ih =>
    simp only [insertSorted]
    split
    · exact List.Perm.refl _
    · exact (ih.cons y).trans (List.Perm.swap x y ys)

theorem sortBy_perm {α : Type} (le : α → α → Bool) (l : List α) :
    (sortBy le l).Perm l := by
  induction l with
  | nil => simp [sortBy]
  | cons x xs ih =>
    simp only [sortBy]
    exact (insertSorted_perm le x (sortBy le xs)).trans (ih.cons x)

theorem insertSorted_pairwise {α : Type} (le : α → α → Bool)
    (htrans : ∀ a b c, le a b = true → le b c = true → le a c = true)
    (htotal : ∀ a b, le a b = true ∨ le b a = true) (x : α) (l : List α)
    (hl : l.Pairwise (fun a b => le a b = true)) :
    (insertSorted le x l).Pairwise (fun a b => le a b = true) := by
  induction l with
  | nil => simp [insertSorted]
  | cons y ys ih =>
    simp only [insertSorted]
    rcases List.pairwise_cons.mp hl with ⟨hy, hys⟩
    by_cases hxy : le x y = true
    · rw [if_pos hxy]
      refine List.pairwise_cons.mpr ⟨?_, hl⟩
      intro z hz
      rcases List.mem_cons.mp hz with hz | hz
      · subst hz; exact hxy
      · exact htrans x y z hxy (hy z hz)
    · rw [if_neg hxy]
      have hyx : le y x = true := (htotal x y).resolve_left hxy
      refine List.pairwise_cons.mpr ⟨?_, ih hys⟩
      intro z hz
      have hz' : z = x ∨ z ∈ ys := by
        have := (insertSorted_perm le x ys).mem_iff.mp hz
        simpa using this
      rcases hz' with hz' | hz'
      · subst hz'; exact hyx
      · exact hy z hz'

theorem sortBy_pairwise {α : Type} (le : α → α → Bool)
    (htrans : ∀ a b c, le a b = true → le b c = true → le a c = true)
    (htotal : ∀ a b, le a b = true ∨ le b a = true) (l : List α) :
    (sortBy le l).Pairwise (fun a b => le a b = true) := by
  induction l with
  | nil => simp [sortBy]
  | cons x xs ih =>
    simp only [sortBy]
    exact insertSorted_pairwise le htrans htotal x (sortBy le xs) ih

/-- The sort in `VBox::split` permutes the slice. -/
theorem sortColors_perm (d : Dimension) (colors : List (Rgb Nat)) :
    (sortColors d colors).Perm colors :=
  sortBy_perm _ colors

/-- The sorted slice of a box permutes its slice. -/
theorem sortedColors_perm (vbox : VBox) : vbox.sortedColors.Perm vbox.colors :=
  sortColors_perm _ _

/-- The split point is at least 1. -/
theorem splitPoint_ge_one (vbox : VBox) (hist : Histogram) :
    1 ≤ vbox.splitPoint hist :=
  Nat.le_max_right _ 1

/-- On a slice of at least two colors the split point stays strictly inside. -/
theorem splitPoint_le (vbox : VBox) (hist : Histogram)
    (h2 : 2 ≤ vbox.sortedColors.length) :
    vbox.splitPoint hist ≤ vbox.sortedColors.length - 1 := by
  unfold VBox.splitPoint
  refine Nat.max_le.mpr ⟨Nat.min_le_right _ _, by omega⟩

/-- `VBox::split` on a box with a non-empty slice: it succeeds, the first box is
non-empty with a population that sums its counts, and the returned slices
partition the parent slice (up to the reordering done by the sort). -/
theorem VBox.split_spec (vbox : VBox) (hist : Histogram) (hne : vbox.colors ≠ []) :
    ∃ va ovb, vbox.split hist = some (va, ovb) ∧
      va.colors ≠ [] ∧ va.population = (va.colors.map hist.countOf).sum ∧
      va.colors = vbox.sortedColors.take (vbox.splitPoint hist) ∧
      ((ovb = none ∧ va.colors.Perm vbox.colors ∧
          vbox.sortedColors.drop (vbox.splitPoint hist) = []) ∨
        (∃ vb, ovb = some vb ∧ vb.colors ≠ [] ∧
          vb.population = (vb.colors.map hist.countOf).sum ∧
          vb.colors = vbox.sortedColors.drop (vbox.splitPoint hist) ∧
          (va.colors ++ vb.colors).Perm vbox.colors)) := by
  have hperm : vbox.sortedColors.Perm vbox.colors := sortedColors_perm vbox
  have hsne : vbox.sortedColors ≠ [] := by
    intro hnil
    rw [hnil] at hperm
    exact hne hperm.nil_eq.symm
  have hsp1 : 1 ≤ vbox.splitPoint hist := splitPoint_ge_one vbox hist
  have htake_ne : vbox.sortedColors.take (vbox.splitPoint hist) ≠ [] := by
    have hlen : (vbox.sortedColors.take (vbox.splitPoint hist)).length =
        min (vbox.splitPoint hist) vbox.sortedColors.length := List.length_take ..
    have hslen : 1 ≤ vbox.sortedColors.length := List.length_pos.mpr hsne
    intro hnil
    rw [hnil] at hlen
    simp at hlen
    omega
  unfold VBox.split
  obtain ⟨va, hva, hvacolors, hvapop⟩ :=
    fromColors_spec (vbox.sortedColors.take (vbox.splitPoint hist)) hist htake_ne
  rw [hva]
  match hdrop : vbox.sortedColors.drop (vbox.splitPoint hist) with
  | [] =>
    have hfilter : Option.filter (fun c : List (Rgb Nat) => !c.isEmpty) (some []) = none := rfl
    rw [hfilter]
    refine ⟨va, none, rfl, ?_, ?_, hvacolors, Or.inl ⟨rfl, ?_, rfl⟩⟩
    · rw [hvacolors]; exact htake_ne
    · rw [hvapop, hvacolors]
    · rw [hvacolors]
      have hta := List.take_append_drop (vbox.splitPoint hist) vbox.sortedColors
      rw [hdrop, List.append_nil] at hta
      rw [hta]
      exact hperm
  | c0 :: crest =>
    have hfilter : Option.filter (fun c : List (Rgb Nat) => !c.isEmpty) (some (c0 :: crest)) =
        some (c0 :: crest) := rfl
    rw [hfilter]
    dsimp only
    obtain ⟨vb, hvb, hvbcolors, hvbpop⟩ :=
      fromColors_spec (c0 :: crest) hist (by simp)
    rw [hvb]
    refine ⟨va, some vb, rfl, ?_, ?_, hvacolors, Or.inr ⟨vb, rfl, ?_, ?_, ?_, ?_⟩⟩
    · rw [hvacolors]; exact htake_ne
    · rw [hvapop, hvacolors]
    · rw [hvbcolors]; simp
    · rw [hvbpop, hvbcolors]
    · rw [hvbcolors]
    · rw [hvacolors, hvbcolors, ← hdrop, List.take_append_drop]
      exact hperm

/-- Pushing onto the heap model is, up to order, consing. -/
theorem heapPush_perm (key : VBox → Nat) (l : List VBox) (v : VBox) :
    (heapPush key l v).Perm (v :: l) := by
  induction l with
  | nil => simp [heapPush]
  | cons x xs ih =>
    simp only [heapPush]
    split
    · exact (ih.cons x).trans (List.Perm.swap v x xs)
    · exact List.Perm.refl _

/-- Folding pushes over a heap appends its contents, up to order. -/
theorem foldl_heapPush_perm (key : VBox → Nat) (q acc : List VBox) :
    (q.foldl (heapPush key) acc).Perm (q ++ acc) := by
  induction q generalizing acc with
  | nil => simp
  | cons x q ih =>
    simp only [List.foldl_cons, List.cons_append]
    refine (ih (heapPush key acc x)).trans ?_
    refine (List.Perm.append_left q (heapPush_perm key acc x)).trans ?_
    exact List.perm_middle

/-- Rebuilding the heap under a new key keeps its contents. -/
theorem heapify_perm (key : VBox → Nat) (q : List VBox) :
    (heapify key q).Perm q := by
  have := foldl_heapPush_perm key q []
  simpa [heapify] using this

theorem sumPop_perm {q q' : List VBox} (h : q.Perm q') : sumPop q = sumPop q' :=
  (h.map VBox.population).sum_eq

theorem GoodQueue_perm {hist : Histogram} {q q' : List VBox} (h : q.Perm q')
    (hg : GoodQueue hist q) : GoodQueue hist q' :=
  fun b hb => hg b (h.mem_iff.mpr hb)

/-- The `split_boxes` loop preserves the queue invariant, never panics on an
invariant queue, conserves the total population, and never grows the queue
beyond `max q.length target`. -/
theorem splitBoxesLoop_spec (key : VBox → Nat) (hist : Histogram) (target : Nat) :
    ∀ (fuel : Nat) (q : List VBox), fuel = target - q.length → q ≠ [] →
      GoodQueue hist q →
      ∃ q', splitBoxesLoop key hist fuel q = some q' ∧ q' ≠ [] ∧ GoodQueue hist q' ∧
        sumPop q' = sumPop q ∧ q'.length ≤ max q.length target := by
  intro fuel
  induction fuel with
  | zero =>
    intro q hfuel hq hg
    exact ⟨q, rfl, hq, hg, rfl, by omega⟩
  | succ n ih =>
    intro q hfuel hq hg
    rcases q with _ | ⟨vbox, rest⟩
    · exact absurd rfl hq
    have hlen : (vbox :: rest).length < target := by
      simp only [List.length_cons] at hfuel ⊢
      omega
    obtain ⟨hbne, hbpop⟩ := hg vbox (by simp)
    obtain ⟨va, ovb, hsplit, hva_ne, hva_pop, _hva_take, hcases⟩ :=
      VBox.split_spec vbox hist hbne
    rw [splitBoxesLoop]
    rcases hcases with ⟨hnone, hpermA, _hdropnil⟩ | ⟨vb, hsome, hvb_ne, hvb_pop, _hvb_drop, hpermAB⟩
    · subst hnone
      rw [hsplit]
      have hqperm : (heapPush key rest va).Perm (va :: rest) := heapPush_perm key rest va
      refine ⟨heapPush key rest va, rfl, ?_, ?_, ?_, ?_⟩
      · intro hnil
        have := hqperm.length_eq
        rw [hnil] at this
        simp at this
      · refine GoodQueue_perm hqperm.symm ?_
        intro b hb
        rcases List.mem_cons.mp hb with hb | hb
        · subst hb; exact ⟨hva_ne, hva_pop⟩
        · exact hg b (List.mem_cons_of_mem _ hb)
      · rw [sumPop_perm hqperm]
        have hsum : va.population = vbox.population := by
          rw [hva_pop, hbpop, (hpermA.map hist.countOf).sum_eq]
        simp [sumPop, hsum]
      · have := hqperm.length_eq
        simp only [List.length_cons] at this ⊢
        omega
    · subst hsome
      rw [hsplit]
      have hpops : va.population + vb.population = vbox.population := by
        rw [hva_pop, hvb_pop, hbpop, ← (hpermAB.map hist.countOf).sum_eq]
        simp
      have hq2perm : (heapPush key (heapPush key rest va) vb).Perm (vb :: va :: rest) := by
        refine (heapPush_perm key _ vb).trans ?_
        exact ((heapPush_perm key rest va).cons vb)
      have hq2len : (heapPush key (heapPush key rest va) vb).length = rest.length + 2 := by
        simp [heapPush_length]
      have hq2ne : heapPush key (heapPush key rest va) vb ≠ [] := by
        intro hnil
        rw [hnil] at hq2len
        simp at hq2len
      have hq2good : GoodQueue hist (heapPush key (heapPush key rest va) vb) := by
        refine GoodQueue_perm hq2perm.symm ?_
        intro b hb
        rcases List.mem_cons.mp hb with hb | hb
        · subst hb; exact ⟨hvb_ne, hvb_pop⟩
        rcases List.mem_cons.mp hb with hb | hb
        · subst hb; exact ⟨hva_ne, hva_pop⟩
        · exact hg b (List.mem_cons_of_mem _ hb)
      have hfuel2 : n = target - (heapPush key (heapPush key rest va) vb).length := by
        rw [hq2len]
        simp only [List.length_cons] at hfuel hlen
        omega
      obtain ⟨q', hq', hq'ne, hq'good, hq'sum, hq'len⟩ :=
        ih (heapPush key (heapPush key rest va) vb) hfuel2 hq2ne hq2good
      refine ⟨q', hq', hq'ne, hq'good, ?_, ?_⟩
      · rw [hq'sum, sumPop_perm hq2perm]
        simp only [sumPop, List.map_cons, List.sum_cons]
        omega
      · rw [hq2len] at hq'len
        simp only [List.length_cons] at hlen ⊢
        omega

/-- `split_boxes` preserves the queue invariant, never panics on an invariant
queue, conserves the total population, and never grows the queue beyond
`max q.length target`. -/
theorem splitBoxes_spec (key : VBox → Nat) (hist : Histogram) (target : Nat)
    (q : List VBox) (hq : q ≠ []) (hg : GoodQueue hist q) :
    ∃ q', splitBoxes key q hist target = some q' ∧ q' ≠ [] ∧ GoodQueue hist q' ∧
      sumPop q' = sumPop q ∧ q'.length ≤ max q.length target :=
  splitBoxesLoop_spec key hist target (target - q.length) q rfl hq hg

/-- `average` keeps the population field of its box. -/
theorem average_population (vbox : VBox) (hist : Histogram) :
    (vbox.average hist).population = vbox.population :=
  rfl

/-- The split pipeline of `MedianCut::quantize` on an input with at least one
passing pixel: it returns a palette, the palette's populations sum to the
number of passing pixels, and its size is at most `max 1 colors`. -/
theorem MedianCut.pipeline_spec (image : List Rgba) (f : Rgba → Bool) (colors : Nat)
    (hne : image.filter f ≠ []) :
    ∃ pal, MedianCut.pipeline (imageHistogram image f) (imageDistinctColors image f) colors
        = some pal ∧
      (pal.map Color.population).sum = (image.filter f).length ∧
      pal.length ≤ max 1 colors := by
  have hdne : imageDistinctColors image f ≠ [] := by
    intro h
    exact hne ((imageDistinctColors_eq_nil_iff image f).mp h)
  obtain ⟨vbox, hvb, hvbcolors, hvbpop⟩ :=
    fromColors_spec (imageDistinctColors image f) (imageHistogram image f) hdne
  unfold MedianCut.pipeline
  rw [hvb]
  dsimp only
  have hq0 : heapPush keyPopulation [] vbox = [vbox] := rfl
  rw [hq0]
  have hg0 : GoodQueue (imageHistogram image f) [vbox] := by
    intro b hb
    have hb' : b = vbox := by simpa using hb
    subst hb'
    refine ⟨?_, ?_⟩
    · rw [hvbcolors]; exact hdne
    · rw [hvbpop, hvbcolors]
  obtain ⟨q1, hq1, hq1ne, hq1good, hq1sum, hq1len⟩ :=
    splitBoxes_spec keyPopulation (imageHistogram image f) (3 * colors / 4) [vbox]
      (by simp) hg0
  rw [hq1]
  dsimp only
  have hperm2 := heapify_perm keyPopulationVolume q1
  have hq2ne : heapify keyPopulationVolume q1 ≠ [] := by
    intro h
    rw [h] at hperm2
    exact hq1ne hperm2.nil_eq.symm
  have hg2 : GoodQueue (imageHistogram image f) (heapify keyPopulationVolume q1) :=
    GoodQueue_perm hperm2.symm hq1good
  obtain ⟨q2, hq2, hq2ne', hq2good, hq2sum, hq2len⟩ :=
    splitBoxes_spec keyPopulationVolume (imageHistogram image f) colors
      (heapify keyPopulationVolume q1) hq2ne hg2
  rw [hq2]
  dsimp only
  refine ⟨_, rfl, ?_, ?_⟩
  · have hmap : (q2.map (fun b => b.average (imageHistogram image f))).map Color.population
        = q2.map VBox.population := by
      rw [List.map_map]
      rfl
    rw [hmap]
    show sumPop q2 = _
    rw [hq2sum, sumPop_perm hperm2, hq1sum]
    show vbox.population + 0 = _
    rw [hvbpop, imageDistinctColors_sum]
    omega
  · rw [List.length_map]
    have hlen2 : (heapify keyPopulationVolume q1).length = q1.length := hperm2.length_eq
    rw [hlen2] at hq2len
    have hq0len : ([vbox] : List VBox).length = 1 := rfl
    rw [hq0len] at hq1len
    have hdiv : 3 * colors / 4 ≤ colors := by omega
    omega

/-- The split pipeline panics (reaches the empty-slice `unwrap` of
`VBox::from_colors`) when no pixel passes the filter. -/
theorem MedianCut.pipeline_none (image : List Rgba) (f : Rgba → Bool) (colors : Nat)
    (hnil : image.filter f = []) :
    MedianCut.pipeline (imageHistogram image f) (imageDistinctColors image f) colors
      = none := by
  have hd : imageDistinctColors image f = [] :=
    (imageDistinctColors_eq_nil_iff image f).mpr hnil
  unfold MedianCut.pipeline
  rw [hd]
  rfl

/-- `MedianCut::quantize` with an in-range color count runs the pipeline. -/
theorem MedianCut.quantize_in_range (image : List Rgba) (colors quality : Nat)
    (f : Rgba → Bool) (h2 : 2 ≤ colors) (h256 : colors ≤ 256) :
    MedianCut.quantize image colors quality f =
      Except.ok
        (MedianCut.pipeline (imageHistogram image f) (imageDistinctColors image f) colors) := by
  unfold MedianCut.quantize
  have hc : COLOR_RANGE.containsN colors = true := by
    simp only [COLOR_RANGE, RangeN.containsN, Bool.and_eq_true, decide_eq_true_eq]
    omega
  rw [hc]
  rfl

theorem count_ne_zero_iff {α : Type} [DecidableEq α] (a : α) (l : List α) :
    l.count a ≠ 0 ↔ a ∈ l := by
  rw [← List.count_pos_iff]
  omega

/-- The distinct-color list of a concrete pixel stream, from the sorted list of
its occupied bucket indices. -/
theorem imageDistinctColors_eq (image : List Rgba) (f : Rgba → Bool) (S : List Nat)
    (hS : S.Pairwise (· < ·)) (hlt : ∀ x ∈ S, x < 32768)
    (hmem : ∀ i, (((image.filter f).map quantizePixel).map Rgb.asColorIndex).count i ≠ 0 ↔
      i ∈ S) :
    imageDistinctColors image f = S.map indexColor := by
  rw [imageDistinctColors, bucketCount_eq]
  refine congrArg (List.map indexColor) (range_filter_eq 32768 _ S hS hlt ?_)
  intro i _hi
  constructor
  · intro hp
    refine (hmem i).mp ?_
    rw [← imageHistogram_buckets]
    simpa using hp
  · intro hin
    have hcount := (hmem i).mpr hin
    rw [← imageHistogram_buckets] at hcount
    simpa using hcount

/-- `uniqueByAux` is a sublist of its input. -/
theorem uniqueByAux_sublist {α β : Type} [DecidableEq β] (key : α → β) :
    ∀ (l : List α) (seen : List β), (uniqueByAux key seen l).Sublist l := by
  intro l
  induction l with
  | nil => intro seen; simp [uniqueByAux]
  | cons x xs ih =>
    intro seen
    simp only [uniqueByAux]
    split
    · exact (ih seen).cons x
    · exact (ih (key x :: seen)).cons₂ x

/-- The keys of `uniqueByAux` are distinct and avoid the seen set. -/
theorem uniqueByAux_keys_nodup {α β : Type} [DecidableEq β] (key : α → β) :
    ∀ (l : List α) (seen : List β),
      ((uniqueByAux key seen l).map key).Nodup ∧
        ∀ k ∈ (uniqueByAux key seen l).map key, k ∉ seen := by
  intro l
  induction l with
  | nil => intro seen; simp [uniqueByAux]
  | cons x xs ih =>
    intro seen
    simp only [uniqueByAux]
    by_cases hx : key x ∈ seen
    · rw [if_pos hx]; exact ih seen
    · rw [if_neg hx]
      obtain ⟨hnd, hdisj⟩ := ih (key x :: seen)
      constructor
      · simp only [List.map_cons]
        refine List.nodup_cons.mpr ⟨?_, hnd⟩
        intro hmem
        exact (hdisj _ hmem) (by simp)
      · intro k hk
        simp only [List.map_cons, List.mem_cons] at hk
        rcases hk with hk | hk
        · subst hk; exact hx
        · intro hkseen
          exact (hdisj k hk) (by simp [hkseen])

/-- Every input key survives in `uniqueByAux` unless it was already seen. -/
theorem uniqueByAux_covers {α β : Type} [DecidableEq β] (key : α → β) :
    ∀ (l : List α) (seen : List β), ∀ e ∈ l,
      key e ∈ seen ∨ ∃ e2 ∈ uniqueByAux key seen l, key e2 = key e := by
  intro l
  induction l with
  | nil => simp
  | cons x xs ih =>
    intro seen e he
    simp only [uniqueByAux]
    rcases List.mem_cons.mp he with he | he
    · subst he
      by_cases hx : key e ∈ seen
      · exact Or.inl hx
      · right
        rw [if_neg hx]
        exact ⟨e, by simp, rfl⟩
    · by_cases hx : key x ∈ seen
      · rw [if_pos hx]; exact ih seen e he
      · rw [if_neg hx]
        rcases ih (key x :: seen) e he with hseen | ⟨e2, he2, hke⟩
        · rcases List.mem_cons.mp hseen with h1 | h1
          · right; exact ⟨x, by simp, h1.symm⟩
          · exact Or.inl h1
        · right; exact ⟨e2, by simp [he2], hke⟩

/-- Every item kept by `uniqueByAux` is the first input item with its key. -/
theorem uniqueByAux_first {α β : Type} [DecidableEq β] (key : α → β) :
    ∀ (l : List α) (seen : List β) (e : α), e ∈ uniqueByAux key seen l →
      l.find? (fun x => key x == key e) = some e := by
  intro l
  induction l with
  | nil => intro seen e he; simp [uniqueByAux] at he
  | cons x xs ih =>
    intro seen e he
    simp only [uniqueByAux] at he
    by_cases hx : key x ∈ seen
    · rw [if_pos hx] at he
      have hnot : key e ∉ seen :=
        (uniqueByAux_keys_nodup key xs seen).2 (key e) (List.mem_map_of_mem key he)
      have hne : (key x == key e) = false := by
        simp only [beq_eq_false_iff_ne, ne_eq]
        intro hcontra
        rw [hcontra] at hx
        exact hnot hx
      simp only [List.find?, hne]
      exact ih seen e he
    · rw [if_neg hx] at he
      rcases List.mem_cons.mp he with he | he
      · subst he
        rw [List.find?_cons_of_pos _ (by simp)]
      · have hnot : key e ∉ key x :: seen :=
          (uniqueByAux_keys_nodup key xs (key x :: seen)).2 (key e)
            (List.mem_map_of_mem key he)
        have hne : (key x == key e) = false := by
          simp only [beq_eq_false_iff_ne, ne_eq]
          intro hcontra
          exact hnot (by simp [hcontra.symm])
        simp only [List.find?, hne]
        exact ih (key x :: seen) e he

/-- An `Ok` result of `Neu::quantize` is the deduplicated external palette. -/
theorem Neu.quantize_eq_ok {ext : List Color} {colors quality : Nat} {pal : List Color}
    (h : Neu.quantize ext colors quality = Except.ok pal) :
    pal = uniqueBy Color.color ext := by
  unfold Neu.quantize at h
  by_cases h1 : (RangeN.containsN ⟨1, 31⟩ quality) = false
  · rw [if_pos h1] at h
    exact absurd h (by simp)
  · rw [if_neg h1] at h
    by_cases h2 : (RangeN.containsN ⟨64, 266⟩ colors) = false
    · rw [if_pos h2] at h
      exact absurd h (by simp)
    · rw [if_neg h2] at h
      simpa using h.symm

/-- C1: Population conservation.  For every (resampled) pixel stream, filter
and in-range target with at least one passing pixel (otherwise the quantizer
panics, claim C10), `MedianCut::quantize` returns a palette whose populations
sum to the number of pixels that pass the filter.  The `2 ^ 32` bound reflects
the `u32` histogram counters of the source, within which the `Nat` model is
exact. -/
theorem claim_c1_population_conservation (image : List Rgba) (colors quality : Nat)
    (f : Rgba → Bool) (h2 : 2 ≤ colors) (h256 : colors ≤ 256)
    (hne : image.filter f ≠ []) (_hsize : (image.filter f).length < 2 ^ 32) :
    ∃ pal, MedianCut.quantize image colors quality f = Except.ok (some pal) ∧
      (pal.map Color.population).sum = (image.filter f).length := by
  obtain ⟨pal, hp, hsum, _⟩ := MedianCut.pipeline_spec image f colors hne
  refine ⟨pal, ?_, hsum⟩
  rw [MedianCut.quantize_in_range image colors quality f h2 h256, hp]

theorem claim_c1_witness :
    ∃ pal, MedianCut.quantize [⟨10, 20, 30, 255⟩] 2 1 (fun _ => true) =
        Except.ok (some pal) ∧
      (pal.map Color.population).sum =
        (([⟨10, 20, 30, 255⟩] : List Rgba).filter (fun _ => true)).length :=
  claim_c1_population_conservation [⟨10, 20, 30, 255⟩] 2 1 (fun _ => true)
    (by norm_num) (by norm_num) (by decide) (by decide)

/-- C10: Implicit safety.  With an in-range target, `MedianCut::quantize`
never reaches a panicking `unwrap` when at least one resampled pixel passes the
filter (every box in the pipeline keeps a non-empty slice), and it does panic —
the empty-slice `unwrap` in `VBox::from_colors`, modelled as the inner `none` —
when no pixel passes.  The `2 ^ 32` bound on the passing-pixel count keeps the
`Nat` histogram model faithful to the `u32` counters of the source: at or past
`2 ^ 32` passing copies of one pixel the program overflows a counter (panic in
debug, a wrapped count and an empty distinct-color list — hence the
`from_colors` panic — in release), so no-panic is false there. -/
theorem claim_c10_panic_safety (image : List Rgba) (colors quality : Nat)
    (f : Rgba → Bool) (h2 : 2 ≤ colors) (h256 : colors ≤ 256)
    (_hsize : (image.filter f).length < 2 ^ 32) :
    (image.filter f ≠ [] →
      ∃ pal, MedianCut.quantize image colors quality f = Except.ok (some pal)) ∧
    (image.filter f = [] →
      MedianCut.quantize image colors quality f = Except.ok none) := by
  constructor
  · intro hne
    obtain ⟨pal, hp, _, _⟩ := MedianCut.pipeline_spec image f colors hne
    refine ⟨pal, ?_⟩
    rw [MedianCut.quantize_in_range image colors quality f h2 h256, hp]
  · intro hnil
    rw [MedianCut.quantize_in_range image colors quality f h2 h256,
      MedianCut.pipeline_none image f colors hnil]

theorem claim_c10_witness :
    (∃ pal, MedianCut.quantize [⟨10, 20, 30, 255⟩] 2 1 (fun _ => true) =
        Except.ok (some pal)) ∧
    MedianCut.quantize [] 2 1 (fun _ => true) = Except.ok none := by
  constructor
  · exact (claim_c10_panic_safety [⟨10, 20, 30, 255⟩] 2 1 (fun _ => true)
      (by norm_num) (by norm_num) (by decide)).1 (by decide)
  · exact (claim_c10_panic_safety [] 2 1 (fun _ => true)
      (by norm_num) (by norm_num) (by decide)).2 (by decide)

/-- C4 (amended): `MedianCut::quantize` returns at most `N` entries; having at
least `N` distinct post-filter colors does not guarantee exactly `N` entries
(see the counterexample), because the split loop aborts early when the most
highly keyed box is a singleton.  The `2 ^ 32` bound on the passing-pixel count
keeps the `Nat` histogram model faithful to the `u32` counters of the source,
which overflow (debug panic, or a release wrap that empties the distinct-color
list and panics in `from_colors`) at wrap-scale inputs. -/
theorem claim_c4_palette_at_most (image : List Rgba) (colors quality : Nat)
    (f : Rgba → Bool) (h2 : 2 ≤ colors) (h256 : colors ≤ 256)
    (hne : image.filter f ≠ []) (_hsize : (image.filter f).length < 2 ^ 32) :
    ∃ pal, MedianCut.quantize image colors quality f = Except.ok (some pal) ∧
      pal.length ≤ colors := by
  obtain ⟨pal, hp, _, hlen⟩ := MedianCut.pipeline_spec image f colors hne
  refine ⟨pal, ?_, by omega⟩
  rw [MedianCut.quantize_in_range image colors quality f h2 h256, hp]

theorem claim_c4_witness :
    ∃ pal, MedianCut.quantize [⟨10, 20, 30, 255⟩] 2 1 (fun _ => true) =
        Except.ok (some pal) ∧ pal.length ≤ 2 :=
  claim_c4_palette_at_most [⟨10, 20, 30, 255⟩] 2 1 (fun _ => true)
    (by norm_num) (by norm_num) (by decide) (by decide)

theorem cex4_distinct :
    imageDistinctColors cex4Pixels (fun _ => true) =
      [⟨0, 0, 0⟩, ⟨0, 0, 1⟩, ⟨0, 0, 2⟩, ⟨0, 0, 3⟩] := by
  have hmain := imageDistinctColors_eq cex4Pixels (fun _ => true) [0, 1, 2, 3]
    (by decide) (by decide) ?_
  · exact hmain.trans (by decide)
  · intro i
    have hidx : (((cex4Pixels.filter (fun _ => true)).map quantizePixel).map
        Rgb.asColorIndex) = List.replicate 10 0 ++ [1, 2, 3] := by decide
    rw [hidx, count_ne_zero_iff]
    simp only [List.mem_append, List.mem_replicate, List.mem_cons,
      List.mem_singleton, List.not_mem_nil, or_false]
    omega

/-- C4 (counterexample): with `N = 3` and four distinct post-filter colors the
returned palette has only two entries — the phase-2 loop pops the heavy
singleton box `{(0,0,0)}`, its split yields no second box, and the loop breaks
before reaching `N`. -/
theorem claim_c4_counterexample :
    (imageDistinctColors cex4Pixels (fun _ => true)).length = 4 ∧
    MedianCut.quantize cex4Pixels 3 1 (fun _ => true) =
      Except.ok (some [⟨⟨0, 0, 0⟩, 10⟩, ⟨⟨0, 0, 16⟩, 3⟩]) := by
  constructor
  · rw [cex4_distinct]
    rfl
  · rw [MedianCut.quantize_in_range cex4Pixels 3 1 (fun _ => true) (by norm_num)
      (by norm_num), cex4_distinct]
    exact congrArg Except.ok (by decide)

/-- C3 (amended): `Neu::quantize` deduplicates by color keeping the first entry
with each color: the returned palette has pairwise-distinct colors, is a
sublist of the external palette, covers every color of it, and each kept entry
is the first entry bearing its color.  `MedianCut::quantize` performs no such
collapse and can return duplicates (see the counterexample). -/
theorem claim_c3_neu_unique (ext : List Color) (colors quality : Nat) (pal : List Color)
    (h : Neu.quantize ext colors quality = Except.ok pal) :
    (pal.map Color.color).Nodup ∧ pal.Sublist ext ∧
      (∀ e ∈ ext, ∃ e2 ∈ pal, e2.color = e.color) ∧
      (∀ e ∈ pal, ext.find? (fun x => x.color == e.color) = some e) := by
  have hp := Neu.quantize_eq_ok h
  subst hp
  refine ⟨(uniqueByAux_keys_nodup Color.color ext []).1,
    uniqueByAux_sublist Color.color ext [], ?_, ?_⟩
  · intro e he
    rcases uniqueByAux_covers Color.color ext [] e he with hseen | ⟨e2, he2, hk⟩
    · simp at hseen
    · exact ⟨e2, he2, hk⟩
  · intro e he
    exact uniqueByAux_first Color.color ext [] e he

theorem claim_c3_witness :
    (([⟨⟨1, 2, 3⟩, 5⟩, ⟨⟨7, 7, 7⟩, 1⟩] : List Color).map Color.color).Nodup ∧
      ([⟨⟨1, 2, 3⟩, 5⟩, ⟨⟨7, 7, 7⟩, 1⟩] : List Color).Sublist
        [⟨⟨1, 2, 3⟩, 5⟩, ⟨⟨1, 2, 3⟩, 4⟩, ⟨⟨7, 7, 7⟩, 1⟩] ∧
      (∀ e ∈ ([⟨⟨1, 2, 3⟩, 5⟩, ⟨⟨1, 2, 3⟩, 4⟩, ⟨⟨7, 7, 7⟩, 1⟩] : List Color),
        ∃ e2 ∈ ([⟨⟨1, 2, 3⟩, 5⟩, ⟨⟨7, 7, 7⟩, 1⟩] : List Color), e2.color = e.color) ∧
      (∀ e ∈ ([⟨⟨1, 2, 3⟩, 5⟩, ⟨⟨7, 7, 7⟩, 1⟩] : List Color),
        ([⟨⟨1, 2, 3⟩, 5⟩, ⟨⟨1, 2, 3⟩, 4⟩, ⟨⟨7, 7, 7⟩, 1⟩] : List Color).find?
          (fun x => x.color == e.color) = some e) :=
  claim_c3_neu_unique [⟨⟨1, 2, 3⟩, 5⟩, ⟨⟨1, 2, 3⟩, 4⟩, ⟨⟨7, 7, 7⟩, 1⟩] 64 10
    [⟨⟨1, 2, 3⟩, 5⟩, ⟨⟨7, 7, 7⟩, 1⟩] (by rfl)

theorem cex3_distinct :
    imageDistinctColors cex3Pixels (fun _ => true) =
      [⟨15, 15, 0⟩, ⟨16, 0, 0⟩, ⟨16, 1, 0⟩, ⟨17, 0, 0⟩, ⟨31, 0, 1⟩] := by
  have hmain := imageDistinctColors_eq cex3Pixels (fun _ => true)
    [15840, 16384, 16416, 17408, 31745] (by decide) (by decide) ?_
  · exact hmain.trans (by decide)
  · intro i
    have hidx : (((cex3Pixels.filter (fun _ => true)).map quantizePixel).map
        Rgb.asColorIndex) =
        List.replicate 3 15840 ++ List.replicate 45 16384 ++ List.replicate 16 16416 ++
          [17408] ++ List.replicate 17 31745 := by decide
    rw [hidx, count_ne_zero_iff]
    simp only [List.mem_append, List.mem_replicate, List.mem_cons,
      List.mem_singleton, List.not_mem_nil, or_false]
    omega

/-- C3 (counterexample): `MedianCut::quantize` returns two entries with the
same color `(128, 8, 0)` on this stream — the claim that no quantizer returns
duplicate colors fails for the median-cut quantizer. -/
theorem claim_c3_counterexample :
    MedianCut.quantize cex3Pixels 3 1 (fun _ => true) =
      Except.ok (some [⟨⟨128, 8, 0⟩, 48⟩, ⟨⟨128, 8, 0⟩, 17⟩, ⟨⟨248, 0, 8⟩, 17⟩]) ∧
    ¬ List.Pairwise (fun a b : Color => a.color ≠ b.color)
      [⟨⟨128, 8, 0⟩, 48⟩, ⟨⟨128, 8, 0⟩, 17⟩, ⟨⟨248, 0, 8⟩, 17⟩] := by
  constructor
  · rw [MedianCut.quantize_in_range cex3Pixels 3 1 (fun _ => true) (by norm_num)
      (by norm_num), cex3_distinct]
    exact congrArg Except.ok (by decide)
  · decide

/-- C9 (amended): `MedianCut::quantize` returns `ColorCountOutOfBounds` exactly
when `N ∉ [2, 256]` and never returns `QualityOutOfBounds`; `Neu::quantize`
checks quality first (`QualityOutOfBounds` exactly when `quality ∉ [1, 30]`)
and then its own color range (`ColorCountOutOfBounds` exactly when
`N ∉ [64, 265]`, not `[2, 256]` as claimed), else returns `Ok`. -/
theorem claim_c9_error_bounds (image : List Rgba) (colors quality : Nat)
    (f : Rgba → Bool) (ext : List Color) :
    isColorCountError (MedianCut.quantize image colors quality f) =
        !(decide (2 ≤ colors ∧ colors ≤ 256)) ∧
    isQualityError (MedianCut.quantize image colors quality f) = false ∧
    isQualityError (Neu.quantize ext colors quality) =
        !(decide (1 ≤ quality ∧ quality ≤ 30)) ∧
    isColorCountError (Neu.quantize ext colors quality) =
        (decide (1 ≤ quality ∧ quality ≤ 30) && !(decide (64 ≤ colors ∧ colors ≤ 265))) ∧
    isOkResult (Neu.quantize ext colors quality) =
        (decide (1 ≤ quality ∧ quality ≤ 30) && decide (64 ≤ colors ∧ colors ≤ 265)) := by
  have hcc : COLOR_RANGE.containsN colors = decide (2 ≤ colors ∧ colors ≤ 256) := by
    simp only [COLOR_RANGE, RangeN.containsN, ← Bool.decide_and, decide_eq_decide]
    omega
  have hq : RangeN.containsN ⟨1, 31⟩ quality = decide (1 ≤ quality ∧ quality ≤ 30) := by
    simp only [RangeN.containsN, ← Bool.decide_and, decide_eq_decide]
    omega
  have hnc : RangeN.containsN ⟨64, 266⟩ colors = decide (64 ≤ colors ∧ colors ≤ 265) := by
    simp only [RangeN.containsN, ← Bool.decide_and, decide_eq_decide]
    omega
  unfold MedianCut.quantize Neu.quantize
  rw [hcc, hq, hnc]
  by_cases h1 : 2 ≤ colors ∧ colors ≤ 256 <;>
    by_cases h2 : 1 ≤ quality ∧ quality ≤ 30 <;>
    by_cases h3 : 64 ≤ colors ∧ colors ≤ 265 <;>
    simp [h1, h2, h3, isColorCountError, isQualityError, isOkResult]

/-- `lexLe3` is transitive. -/
theorem lexLe3_trans (x y z : Nat × Nat × Nat) (hxy : lexLe3 x y = true)
    (hyz : lexLe3 y z = true) : lexLe3 x z = true := by
  simp only [lexLe3, Bool.or_eq_true, Bool.and_eq_true, decide_eq_true_eq] at *
  omega

/-- `lexLe3` is total. -/
theorem lexLe3_total (x y : Nat × Nat × Nat) : lexLe3 x y = true ∨ lexLe3 y x = true := by
  simp only [lexLe3, Bool.or_eq_true, Bool.and_eq_true, decide_eq_true_eq]
  omega

/-- The spec's split index computes the same number as the source's. -/
theorem specSplitIndex_eq (vbox : VBox) (hist : Histogram) :
    specSplitIndex hist vbox.population vbox.sortedColors = vbox.splitPoint hist := by
  simp only [specSplitIndex, VBox.splitPoint]
  cases h : vbox.sortedColors.findIdx?
      (fun c => decide (vbox.population / 2 ≤ hist.countOf c)) with
  | none => simp [h, Nat.max_comm, Nat.min_comm]
  | some i => simp [h, Nat.max_comm, Nat.min_comm]

/-- C2: Split index.  On a box with at least two distinct colors, `VBox::split`
sorts the slice lexicographically keyed by the longest dimension and cuts it at
the index described by the spec (`specSplitIndex`); both returned boxes are
non-empty and their slices partition the parent slice.  On a single-color box
it returns the reconstructed box and `None`. -/
theorem claim_c2_split_index (vbox : VBox) (hist : Histogram) :
    (2 ≤ vbox.colors.length →
      ∃ va vb, vbox.split hist = some (va, some vb) ∧
        vbox.sortedColors.Perm vbox.colors ∧
        vbox.sortedColors.Pairwise (fun a b =>
          lexLe3 (dimKey vbox.bounds.longestDimension a)
            (dimKey vbox.bounds.longestDimension b) = true) ∧
        va.colors = vbox.sortedColors.take
          (specSplitIndex hist vbox.population vbox.sortedColors) ∧
        vb.colors = vbox.sortedColors.drop
          (specSplitIndex hist vbox.population vbox.sortedColors) ∧
        va.colors ≠ [] ∧ vb.colors ≠ [] ∧
        (va.colors ++ vb.colors).Perm vbox.colors) ∧
    (vbox.colors.length = 1 →
      ∃ va, vbox.split hist = some (va, none) ∧ va.colors = vbox.colors) := by
  constructor
  · intro h2
    have hne : vbox.colors ≠ [] := by
      intro hnil
      rw [hnil] at h2
      simp at h2
    obtain ⟨va, ovb, hsplit, hva_ne, _hva_pop, hva_take, hcase⟩ :=
      VBox.split_spec vbox hist hne
    have hslen : vbox.sortedColors.length = vbox.colors.length :=
      (sortedColors_perm vbox).length_eq
    have hsp_le : vbox.splitPoint hist ≤ vbox.sortedColors.length - 1 :=
      splitPoint_le vbox hist (by omega)
    rcases hcase with ⟨_hnone, _hperm, hdropnil⟩ |
      ⟨vb, hovb, hvb_ne, _hvb_pop, hvb_drop, hpermAB⟩
    · exfalso
      have hlen := congrArg List.length hdropnil
      rw [List.length_drop] at hlen
      simp at hlen
      omega
    · subst hovb
      refine ⟨va, vb, hsplit, sortedColors_perm vbox, ?_, ?_, ?_, hva_ne, hvb_ne, hpermAB⟩
      · exact sortBy_pairwise
          (fun a b => lexLe3 (dimKey vbox.bounds.longestDimension a)
            (dimKey vbox.bounds.longestDimension b))
          (fun a b c hab hbc => lexLe3_trans _ _ _ hab hbc)
          (fun a b => lexLe3_total _ _) vbox.colors
      · rw [hva_take, specSplitIndex_eq]
      · rw [hvb_drop, specSplitIndex_eq]
  · intro h1
    have hne : vbox.colors ≠ [] := by
      intro hnil
      rw [hnil] at h1
      simp at h1
    obtain ⟨va, ovb, hsplit, _hva_ne, _hva_pop, hva_take, hcase⟩ :=
      VBox.split_spec vbox hist hne
    have hslen : vbox.sortedColors.length = vbox.colors.length :=
      (sortedColors_perm vbox).length_eq
    have hsp1 : 1 ≤ vbox.splitPoint hist := splitPoint_ge_one vbox hist
    rcases hcase with ⟨hnone, _hperm, _hdropnil⟩ |
      ⟨vb, hovb, hvb_ne, _hvb_pop, hvb_drop, _hpermAB⟩
    · subst hnone
      refine ⟨va, hsplit, ?_⟩
      have hsorted : vbox.sortedColors = vbox.colors := by
        obtain ⟨c, hc⟩ := List.length_eq_one.mp h1
        rw [hc]
        have hp := sortedColors_perm vbox
        rw [hc] at hp
        exact List.perm_singleton.mp hp
      rw [hva_take, hsorted]
      exact List.take_of_length_le (by omega)
    · exfalso
      apply hvb_ne
      rw [hvb_drop]
      apply List.drop_eq_nil_of_le
      omega

theorem claim_c2_witness :
    (∃ va vb, c2Box.split c2Hist = some (va, some vb) ∧
      c2Box.sortedColors.Perm c2Box.colors ∧
      c2Box.sortedColors.Pairwise (fun a b =>
        lexLe3 (dimKey c2Box.bounds.longestDimension a)
          (dimKey c2Box.bounds.longestDimension b) = true) ∧
      va.colors = c2Box.sortedColors.take
        (specSplitIndex c2Hist c2Box.population c2Box.sortedColors) ∧
      vb.colors = c2Box.sortedColors.drop
        (specSplitIndex c2Hist c2Box.population c2Box.sortedColors) ∧
      va.colors ≠ [] ∧ vb.colors ≠ [] ∧
      (va.colors ++ vb.colors).Perm c2Box.colors) ∧
    (∃ va, c2Box1.split c2Hist = some (va, none) ∧ va.colors = c2Box1.colors) :=
  ⟨(claim_c2_split_index c2Box c2Hist).1 (by decide),
   (claim_c2_split_index c2Box1 c2Hist).2 (by decide)⟩

/-- The channel accumulator of `VBox::average` as three `List.sum`s. -/
theorem average_fold_eq (hist : Histogram) (colors : List (Rgb Nat)) (acc : Rgb Nat) :
    colors.foldl (fun (acc : Rgb Nat) c =>
      ⟨acc.r + hist.countOf c * Quantized.toColor c.r,
       acc.g + hist.countOf c * Quantized.toColor c.g,
       acc.b + hist.countOf c * Quantized.toColor c.b⟩) acc =
    ⟨acc.r + (colors.map (fun c => hist.countOf c * Quantized.toColor c.r)).sum,
     acc.g + (colors.map (fun c => hist.countOf c * Quantized.toColor c.g)).sum,
     acc.b + (colors.map (fun c => hist.countOf c * Quantized.toColor c.b)).sum⟩ := by
  induction colors generalizing acc with
  | nil => simp
  | cons x xs ih =>
    simp only [List.foldl_cons, List.map_cons, List.sum_cons]
    rw [ih]
    simp only [Rgb.mk.injEq]
    exact ⟨by omega, by omega, by omega⟩

/-- `VBox::average` in closed form: per channel `(2·S + p) / (2·p)` on the
weighted sums, population passed through. -/
theorem average_eq (vbox : VBox) (hist : Histogram) :
    vbox.average hist =
      { color := ⟨(2 * (vbox.colors.map
            (fun c => hist.countOf c * Quantized.toColor c.r)).sum + vbox.population) /
              (2 * vbox.population),
          (2 * (vbox.colors.map
            (fun c => hist.countOf c * Quantized.toColor c.g)).sum + vbox.population) /
              (2 * vbox.population),
          (2 * (vbox.colors.map
            (fun c => hist.countOf c * Quantized.toColor c.b)).sum + vbox.population) /
              (2 * vbox.population)⟩
        population := vbox.population } := by
  simp only [VBox.average]
  rw [average_fold_eq]
  simp [Rgb.map]

/-- The integer form of round-half-away-from-zero on a non-negative quotient:
`(2·S + W) / (2·W)` in `Nat` equals `round (S / W)` in `ℚ`. -/
theorem nat_div_round (S W : Nat) (hW : 0 < W) :
    (((2 * S + W) / (2 * W) : ℕ) : ℤ) = round ((S : ℚ) / (W : ℚ)) := by
  rw [round_eq]
  have hstep : (S : ℚ) / (W : ℚ) + 1 / 2 = ((2 * S + W : ℕ) : ℚ) / ((2 * W : ℕ) : ℚ) := by
    have hW' : (W : ℚ) ≠ 0 := by positivity
    push_cast
    field_simp
    ring
  rw [hstep, Rat.floor_natCast_div_natCast]
  exact Int.natCast_div _ _

/-- C5: Weighted average.  On a box with a non-empty slice of colors with
positive counts, whose population field sums those counts (the invariant the
pipeline maintains, claim C10), `VBox::average` returns population `Σ wᵢ` and,
per channel, `round (Σ wᵢ·toColor(qᵢ) / Σ wᵢ)` — rounding half away from zero,
which the `f64` arithmetic of the source computes exactly in this range. -/
theorem claim_c5_weighted_average (vbox : VBox) (hist : Histogram)
    (hne : vbox.colors ≠ [])
    (hpos : ∀ c ∈ vbox.colors, 0 < hist.countOf c)
    (hpop : vbox.population = (vbox.colors.map hist.countOf).sum) :
    (vbox.average hist).population = (vbox.colors.map hist.countOf).sum ∧
    ((vbox.average hist).color.r : ℤ) =
      round (((vbox.colors.map (fun c => hist.countOf c * Quantized.toColor c.r)).sum : ℚ) /
        ((vbox.colors.map hist.countOf).sum : ℚ)) ∧
    ((vbox.average hist).color.g : ℤ) =
      round (((vbox.colors.map (fun c => hist.countOf c * Quantized.toColor c.g)).sum : ℚ) /
        ((vbox.colors.map hist.countOf).sum : ℚ)) ∧
    ((vbox.average hist).color.b : ℤ) =
      round (((vbox.colors.map (fun c => hist.countOf c * Quantized.toColor c.b)).sum : ℚ) /
        ((vbox.colors.map hist.countOf).sum : ℚ)) := by
  have hW : 0 < (vbox.colors.map hist.countOf).sum := by
    obtain ⟨c, hc⟩ := List.exists_mem_of_ne_nil vbox.colors hne
    have h1 : hist.countOf c ≤ (vbox.colors.map hist.countOf).sum :=
      List.single_le_sum (fun _ _ => Nat.zero_le _) _ (List.mem_map_of_mem _ hc)
    have h2 := hpos c hc
    omega
  rw [average_eq, hpop]
  exact ⟨rfl, nat_div_round _ _ hW, nat_div_round _ _ hW, nat_div_round _ _ hW⟩

theorem claim_c5_witness :
    (c5Box.average c5Hist).population = (c5Box.colors.map c5Hist.countOf).sum ∧
    ((c5Box.average c5Hist).color.r : ℤ) =
      round (((c5Box.colors.map (fun c => c5Hist.countOf c * Quantized.toColor c.r)).sum : ℚ) /
        ((c5Box.colors.map c5Hist.countOf).sum : ℚ)) ∧
    ((c5Box.average c5Hist).color.g : ℤ) =
      round (((c5Box.colors.map (fun c => c5Hist.countOf c * Quantized.toColor c.g)).sum : ℚ) /
        ((c5Box.colors.map c5Hist.countOf).sum : ℚ)) ∧
    ((c5Box.average c5Hist).color.b : ℤ) =
      round (((c5Box.colors.map (fun c => c5Hist.countOf c * Quantized.toColor c.b)).sum : ℚ) /
        ((c5Box.colors.map c5Hist.countOf).sum : ℚ)) :=
  claim_c5_weighted_average c5Box c5Hist (by decide) (by decide) (by decide)

/-- C6: Pixel filter.  The source's filter ignores the alpha channel entirely:
it accepts a pixel if and only if the near-white test fails, for every alpha —
the declared `MIN_ALPHA = 125` is dead code.  In particular the transparent
pixel `(10, 20, 30, 100)` is accepted although the claim requires `A ≥ 125` to
accept. -/
theorem claim_c6_alpha_ignored :
    (∀ p : Rgba, passesPaletteFilter p =
      !(decide (p.r.val > 250) && decide (p.g.val > 250) && decide (p.b.val > 250))) ∧
    passesPaletteFilter ⟨10, 20, 30, 100⟩ = true := by
  constructor
  · intro p
    simp [passesPaletteFilter, is_boring_pixel, Rgba.toRgb]
  · rfl

/-- C9 (counterexample): at `N = 2`, `quality = 10` — both inside the ranges the
claim allows — `Neu::quantize` nevertheless returns `ColorCountOutOfBounds`,
because its implemented color range is `64..266`, not `[2, 256]`. -/
theorem claim_c9_counterexample :
    Neu.quantize [] 2 10 =
      Except.error (Error.ColorCountOutOfBounds 2 ⟨64, 266⟩) := by
  rfl

theorem hsl80_s : (HSL.fromRgb ⟨80, 53, 53⟩).s = 27 / 133 := by
  rw [HSL.fromRgb]
  norm_num [max_def, min_def, abs]

theorem hsl80_l : (HSL.fromRgb ⟨80, 53, 53⟩).l = 133 / 510 := by
  rw [HSL.fromRgb]
  norm_num [max_def, min_def, abs]

theorem find_eval (v : Vibrancy) (luma saturation : MTM) :
    v.findColorVariation [⟨80, 53, 53⟩] [1] luma saturation =
      if saturation.min ≤ 27 / 133 ∧ 27 / 133 ≤ saturation.max ∧
          luma.min ≤ 133 / 510 ∧ 133 / 510 ≤ luma.max ∧
          ¬ v.colorAlreadySet ⟨80, 53, 53⟩ = true then
        some ⟨80, 53, 53⟩ else none := by
  rw [Vibrancy.findColorVariation]
  simp only [List.enum, List.enumFrom, List.foldl_cons, List.foldl_nil, hsl80_s, hsl80_l]
  by_cases hc : saturation.min ≤ 27 / 133 ∧ 27 / 133 ≤ saturation.max ∧
      luma.min ≤ 133 / 510 ∧ 133 / 510 ≤ luma.max ∧
      ¬ v.colorAlreadySet ⟨80, 53, 53⟩ = true
  · rw [if_pos hc, if_pos hc]
    norm_num
  · rw [if_neg hc, if_neg hc]

theorem gen_cex :
    generate_varation_colors [⟨80, 53, 53⟩] [1] =
      ⟨none, none, none, none, some ⟨80, 53, 53⟩, none⟩ := by
  rw [generate_varation_colors]
  simp only [Vibrancy.empty, find_eval, Vibrancy.colorAlreadySet]
  norm_num [MIN_NORMAL_LUMA, TARGET_NORMAL_LUMA, MAX_NORMAL_LUMA, MIN_LIGHT_LUMA,
    TARGET_LIGHT_LUMA, TARGET_DARK_LUMA, MAX_DARK_LUMA, MIN_VIBRANT_SATURATION,
    TARGET_VIBRANT_SATURATION, TARGET_MUTED_SATURATION, MAX_MUTED_SATURATION]

theorem hsl80 : HSL.fromRgb ⟨80, 53, 53⟩ = ⟨0, 27 / 133, 133 / 510⟩ := by
  rw [HSL.fromRgb]
  norm_num [max_def, min_def, abs]

theorem hsl153 : HSL.fromRgb ⟨153, 102, 102⟩ = ⟨0, 1 / 5, 1 / 2⟩ := by
  rw [HSL.fromRgb]
  norm_num [max_def, min_def, abs]

theorem hsl202 : HSL.fromRgb ⟨202, 175, 175⟩ = ⟨0, 27 / 133, 377 / 510⟩ := by
  rw [HSL.fromRgb]
  norm_num [max_def, min_def, abs]

theorem ov1 : overrideLuma ⟨80, 53, 53⟩ TARGET_DARK_LUMA = ⟨80, 53, 53⟩ := by
  rw [overrideLuma, hsl80]
  show HSL.toRgb ⟨0, 27 / 133, TARGET_DARK_LUMA⟩ = _
  rw [HSL.toRgb]
  norm_num [TARGET_DARK_LUMA, ratToU8, round_eq, abs]
  decide

theorem ov2 : overrideLuma ⟨80, 53, 53⟩ TARGET_NORMAL_LUMA = ⟨153, 102, 102⟩ := by
  rw [overrideLuma, hsl80]
  show HSL.toRgb ⟨0, 27 / 133, TARGET_NORMAL_LUMA⟩ = _
  rw [HSL.toRgb]
  norm_num [TARGET_NORMAL_LUMA, ratToU8, round_eq, abs]
  decide

theorem ov3 : overrideLuma ⟨153, 102, 102⟩ TARGET_LIGHT_LUMA = ⟨202, 175, 175⟩ := by
  rw [overrideLuma, hsl153]
  show HSL.toRgb ⟨0, 1 / 5, TARGET_LIGHT_LUMA⟩ = _
  rw [HSL.toRgb]
  norm_num [TARGET_LIGHT_LUMA, ratToU8, round_eq, abs]
  decide

theorem ov4 : overrideSat ⟨153, 102, 102⟩ TARGET_MUTED_SATURATION = ⟨166, 89, 89⟩ := by
  rw [overrideSat, hsl153]
  show HSL.toRgb ⟨0, TARGET_MUTED_SATURATION, 1 / 2⟩ = _
  rw [HSL.toRgb]
  norm_num [TARGET_MUTED_SATURATION, ratToU8, round_eq, abs]
  decide

theorem ov5 : overrideSat ⟨202, 175, 175⟩ TARGET_MUTED_SATURATION = ⟨208, 169, 169⟩ := by
  rw [overrideSat, hsl202]
  show HSL.toRgb ⟨0, TARGET_MUTED_SATURATION, 377 / 510⟩ = _
  rw [HSL.toRgb]
  norm_num [TARGET_MUTED_SATURATION, ratToU8, round_eq, abs]
  decide

theorem fill_cex :
    generate_empty_swatches ⟨none, none, none, none, some ⟨80, 53, 53⟩, none⟩ =
      ⟨some ⟨153, 102, 102⟩, some ⟨80, 53, 53⟩, some ⟨202, 175, 175⟩,
        some ⟨166, 89, 89⟩, some ⟨80, 53, 53⟩, some ⟨208, 169, 169⟩⟩ := by
  rw [generate_empty_swatches]
  simp +decide [ov1, ov2, ov3, ov4, ov5]

/-- `find_color_variation` is the fold of its loop body. -/
theorem findColorVariation_eq_foldl (v : Vibrancy) (palette : List (Rgb Nat))
    (pixelCounts : List Nat) (luma saturation : MTM) :
    v.findColorVariation palette pixelCounts luma saturation =
      (palette.enum.foldl
        (findStep v pixelCounts luma saturation (pixelCounts.max?.getD 0)) (none, 0)).1 :=
  rfl

/-- One loop step either keeps the running maximum or switches to a swatch that
passes the full window-and-uniqueness test. -/
theorem findStep_cases (v : Vibrancy) (pixelCounts : List Nat) (luma saturation : MTM)
    (pop : Nat) (acc : Option (Rgb Nat) × ℚ) (x : Nat × Rgb Nat) :
    (findStep v pixelCounts luma saturation pop acc x).1 = acc.1 ∨
      ((findStep v pixelCounts luma saturation pop acc x).1 = some x.2 ∧
        saturation.min ≤ (HSL.fromRgb x.2).s ∧ (HSL.fromRgb x.2).s ≤ saturation.max ∧
        luma.min ≤ (HSL.fromRgb x.2).l ∧ (HSL.fromRgb x.2).l ≤ luma.max ∧
        v.colorAlreadySet x.2 = false) := by
  rw [findStep]
  dsimp only
  split_ifs with h1 h2 h3
  · exact Or.inl rfl
  · have hbf : v.colorAlreadySet x.2 = false := by
      cases hb : v.colorAlreadySet x.2
      · rfl
      · exact absurd hb h1.2.2.2.2
    exact Or.inr ⟨rfl, h1.1, h1.2.1, h1.2.2.1, h1.2.2.2.1, hbf⟩
  · exact Or.inl rfl
  · exact Or.inl rfl

/-- The fold invariant of `find_color_variation`: any swatch held by the
accumulator passed the window-and-uniqueness test. -/
theorem findFold_some (v : Vibrancy) (pixelCounts : List Nat) (luma saturation : MTM)
    (pop : Nat) :
    ∀ (l : List (Nat × Rgb Nat)) (acc : Option (Rgb Nat) × ℚ),
      (∀ c, acc.1 = some c →
        saturation.min ≤ (HSL.fromRgb c).s ∧ (HSL.fromRgb c).s ≤ saturation.max ∧
        luma.min ≤ (HSL.fromRgb c).l ∧ (HSL.fromRgb c).l ≤ luma.max ∧
        v.colorAlreadySet c = false) →
      ∀ c, (l.foldl (findStep v pixelCounts luma saturation pop) acc).1 = some c →
        saturation.min ≤ (HSL.fromRgb c).s ∧ (HSL.fromRgb c).s ≤ saturation.max ∧
        luma.min ≤ (HSL.fromRgb c).l ∧ (HSL.fromRgb c).l ≤ luma.max ∧
        v.colorAlreadySet c = false := by
  intro l
  induction l with
  | nil => intro acc hacc c hc; exact hacc c hc
  | cons x xs ih =>
    intro acc hacc c hc
    rw [List.foldl_cons] at hc
    refine ih (findStep v pixelCounts luma saturation pop acc x) ?_ c hc
    intro c0 hc0
    rcases findStep_cases v pixelCounts luma saturation pop acc x with heq | ⟨heq, hw⟩
    · exact hacc c0 (by rw [← heq]; exact hc0)
    · have hcx : x.2 = c0 := Option.some.inj (by rw [← heq, hc0])
      rw [← hcx]
      exact hw

/-- A color returned by `find_color_variation` lies in the requested windows
and differs from every slot already assigned. -/
theorem findColorVariation_some (v : Vibrancy) (palette : List (Rgb Nat))
    (pixelCounts : List Nat) (luma saturation : MTM) (c : Rgb Nat)
    (h : v.findColorVariation palette pixelCounts luma saturation = some c) :
    saturation.min ≤ (HSL.fromRgb c).s ∧ (HSL.fromRgb c).s ≤ saturation.max ∧
      luma.min ≤ (HSL.fromRgb c).l ∧ (HSL.fromRgb c).l ≤ luma.max ∧
      v.colorAlreadySet c = false := by
  rw [findColorVariation_eq_foldl] at h
  exact findFold_some v pixelCounts luma saturation (pixelCounts.max?.getD 0)
    palette.enum (none, 0) (by intro c0 hc0; exact absurd hc0 (by simp)) c h

/-- A color returned by `find_color_variation` differs from each of the six
slots of the vibrancy it was searched against. -/
theorem findColorVariation_avoid (v : Vibrancy) (palette : List (Rgb Nat))
    (pixelCounts : List Nat) (luma saturation : MTM) (c : Rgb Nat)
    (h : v.findColorVariation palette pixelCounts luma saturation = some c) :
    v.primary ≠ some c ∧ v.dark ≠ some c ∧ v.light ≠ some c ∧ v.muted ≠ some c ∧
      v.dark_muted ≠ some c ∧ v.light_muted ≠ some c := by
  have hw := (findColorVariation_some v palette pixelCounts luma saturation c h).2.2.2.2
  simp only [Vibrancy.colorAlreadySet, Bool.or_eq_false_iff,
    decide_eq_false_iff_not] at hw
  exact ⟨hw.1.1.1.1.1, hw.1.1.1.1.2, hw.1.1.1.2, hw.1.1.2, hw.1.2, hw.2⟩

/-- Six option slots are pairwise color-disjoint once each of slots 2..6 avoids
all its predecessors in assignment order `f1, f2, f3, f4, f5, f6`, laid out in
slot order `[f1, f3, f2, f4, f6, f5]`. -/
theorem pairwise_of_avoid (f1 f2 f3 f4 f5 f6 : Option (Rgb Nat))
    (hA2 : ∀ c, f2 = some c → f1 ≠ some c)
    (hA3 : ∀ c, f3 = some c → f1 ≠ some c ∧ f2 ≠ some c)
    (hA4 : ∀ c, f4 = some c → f1 ≠ some c ∧ f3 ≠ some c ∧ f2 ≠ some c)
    (hA5 : ∀ c, f5 = some c → f1 ≠ some c ∧ f3 ≠ some c ∧ f2 ≠ some c ∧ f4 ≠ some c)
    (hA6 : ∀ c, f6 = some c →
      f1 ≠ some c ∧ f3 ≠ some c ∧ f2 ≠ some c ∧ f4 ≠ some c ∧ f5 ≠ some c) :
    List.Pairwise (fun a b => ∀ x : Rgb Nat, a = some x → b ≠ some x)
      [f1, f3, f2, f4, f6, f5] := by
  refine List.pairwise_cons.mpr ⟨?_, List.pairwise_cons.mpr ⟨?_,
    List.pairwise_cons.mpr ⟨?_, List.pairwise_cons.mpr ⟨?_,
    List.pairwise_cons.mpr ⟨?_, List.pairwise_singleton ..⟩⟩⟩⟩⟩
  · intro b hb x h1x
    simp only [List.mem_cons, List.not_mem_nil, or_false] at hb
    rcases hb with rfl | rfl | rfl | rfl | rfl
    · intro h3x; exact (hA3 x h3x).1 h1x
    · intro h2x; exact hA2 x h2x h1x
    · intro h4x; exact (hA4 x h4x).1 h1x
    · intro h6x; exact (hA6 x h6x).1 h1x
    · intro h5x; exact (hA5 x h5x).1 h1x
  · intro b hb x h3x
    simp only [List.mem_cons, List.not_mem_nil, or_false] at hb
    rcases hb with rfl | rfl | rfl | rfl
    · exact (hA3 x h3x).2
    · intro h4x; exact (hA4 x h4x).2.1 h3x
    · intro h6x; exact (hA6 x h6x).2.1 h3x
    · intro h5x; exact (hA5 x h5x).2.1 h3x
  · intro b hb x h2x
    simp only [List.mem_cons, List.not_mem_nil, or_false] at hb
    rcases hb with rfl | rfl | rfl
    · intro h4x; exact (hA4 x h4x).2.2 h2x
    · intro h6x; exact (hA6 x h6x).2.2.1 h2x
    · intro h5x; exact (hA5 x h5x).2.2.1 h2x
  · intro b hb x h4x
    simp only [List.mem_cons, List.not_mem_nil, or_false] at hb
    rcases hb with rfl | rfl
    · intro h6x; exact (hA6 x h6x).2.2.2.1 h4x
    · intro h5x; exact (hA5 x h5x).2.2.2 h4x
  · intro b hb x h6x
    simp only [List.mem_cons, List.not_mem_nil, or_false] at hb
    rcases hb with rfl
    · exact (hA6 x h6x).2.2.2.2

/-- C7 (amended): HSL membership holds for the selection pass: every slot that
`generate_varation_colors` assigns `Some` satisfies its role's luma and
saturation window from the role table.  The fill-empty pass of `Vibrancy::new`
breaks this (see the counterexample). -/
theorem claim_c7_selection_windows (palette : List (Rgb Nat)) (pixelCounts : List Nat) :
    (∀ c, (generate_varation_colors palette pixelCounts).primary = some c →
      MIN_NORMAL_LUMA ≤ (HSL.fromRgb c).l ∧ (HSL.fromRgb c).l ≤ MAX_NORMAL_LUMA ∧
      MIN_VIBRANT_SATURATION ≤ (HSL.fromRgb c).s ∧ (HSL.fromRgb c).s ≤ 1) ∧
    (∀ c, (generate_varation_colors palette pixelCounts).light = some c →
      MIN_LIGHT_LUMA ≤ (HSL.fromRgb c).l ∧ (HSL.fromRgb c).l ≤ 1 ∧
      MIN_VIBRANT_SATURATION ≤ (HSL.fromRgb c).s ∧ (HSL.fromRgb c).s ≤ 1) ∧
    (∀ c, (generate_varation_colors palette pixelCounts).dark = some c →
      0 ≤ (HSL.fromRgb c).l ∧ (HSL.fromRgb c).l ≤ MAX_DARK_LUMA ∧
      MIN_VIBRANT_SATURATION ≤ (HSL.fromRgb c).s ∧ (HSL.fromRgb c).s ≤ 1) ∧
    (∀ c, (generate_varation_colors palette pixelCounts).muted = some c →
      MIN_NORMAL_LUMA ≤ (HSL.fromRgb c).l ∧ (HSL.fromRgb c).l ≤ MAX_NORMAL_LUMA ∧
      0 ≤ (HSL.fromRgb c).s ∧ (HSL.fromRgb c).s ≤ MAX_MUTED_SATURATION) ∧
    (∀ c, (generate_varation_colors palette pixelCounts).light_muted = some c →
      MIN_LIGHT_LUMA ≤ (HSL.fromRgb c).l ∧ (HSL.fromRgb c).l ≤ 1 ∧
      0 ≤ (HSL.fromRgb c).s ∧ (HSL.fromRgb c).s ≤ MAX_MUTED_SATURATION) ∧
    (∀ c, (generate_varation_colors palette pixelCounts).dark_muted = some c →
      0 ≤ (HSL.fromRgb c).l ∧ (HSL.fromRgb c).l ≤ MAX_DARK_LUMA ∧
      0 ≤ (HSL.fromRgb c).s ∧ (HSL.fromRgb c).s ≤ MAX_MUTED_SATURATION) := by
  refine ⟨?_, ?_, ?_, ?_, ?_, ?_⟩ <;>
    intro c h <;>
    simp only [generate_varation_colors, Vibrancy.empty] at h <;>
    have hw := findColorVariation_some _ _ _ _ _ c h <;>
    exact ⟨hw.2.2.1, hw.2.2.2.1, hw.1, hw.2.1⟩

theorem claim_c7_witness :
    0 ≤ (HSL.fromRgb ⟨80, 53, 53⟩).l ∧ (HSL.fromRgb ⟨80, 53, 53⟩).l ≤ MAX_DARK_LUMA ∧
    0 ≤ (HSL.fromRgb ⟨80, 53, 53⟩).s ∧ (HSL.fromRgb ⟨80, 53, 53⟩).s ≤ MAX_MUTED_SATURATION :=
  (claim_c7_selection_windows [⟨80, 53, 53⟩] [1]).2.2.2.2.2 ⟨80, 53, 53⟩
    (by rw [gen_cex])

/-- C8 (amended): slot uniqueness holds for the selection pass: no color
appears in two different slots of the `Vibrancy` built by
`generate_varation_colors`.  The fill-empty pass of `Vibrancy::new` breaks
this (see the counterexample). -/
theorem claim_c8_selection_distinct (palette : List (Rgb Nat)) (pixelCounts : List Nat) :
    ((generate_varation_colors palette pixelCounts).slots).Pairwise
      (fun a b => ∀ x : Rgb Nat, a = some x → b ≠ some x) := by
  simp only [generate_varation_colors, Vibrancy.slots, Vibrancy.empty]
  refine pairwise_of_avoid _ _ _ _ _ _ ?_ ?_ ?_ ?_ ?_
  · intro c h
    exact (findColorVariation_avoid _ _ _ _ _ c h).1
  · intro c h
    have ha := findColorVariation_avoid _ _ _ _ _ c h
    exact ⟨ha.1, ha.2.2.1⟩
  · intro c h
    have ha := findColorVariation_avoid _ _ _ _ _ c h
    exact ⟨ha.1, ha.2.1, ha.2.2.1⟩
  · intro c h
    have ha := findColorVariation_avoid _ _ _ _ _ c h
    exact ⟨ha.1, ha.2.1, ha.2.2.1, ha.2.2.2.1⟩
  · intro c h
    have ha := findColorVariation_avoid _ _ _ _ _ c h
    exact ⟨ha.1, ha.2.1, ha.2.2.1, ha.2.2.2.1, ha.2.2.2.2.2⟩

theorem claim_c8_witness :
    ((generate_varation_colors [⟨80, 53, 53⟩] [1]).slots).Pairwise
      (fun a b => ∀ x : Rgb Nat, a = some x → b ≠ some x) :=
  claim_c8_selection_distinct [⟨80, 53, 53⟩] [1]

/-- C7 (counterexample): on the single-color palette `[(80,53,53)]`,
`Vibrancy::new`'s construction assigns the dark slot the color `(80,53,53)`
(synthesized from dark-muted by the fill-empty pass), whose saturation
`27/133 ≈ 0.20` lies below the dark role's saturation window minimum
`MIN_VIBRANT_SATURATION = 0.35` — HSL membership fails for the full
construction. -/
theorem claim_c7_counterexample :
    (vibrancyFromPalette [⟨80, 53, 53⟩] [1]).dark = some ⟨80, 53, 53⟩ ∧
    (HSL.fromRgb ⟨80, 53, 53⟩).s < MIN_VIBRANT_SATURATION := by
  constructor
  · rw [vibrancyFromPalette, gen_cex, fill_cex]
  · rw [hsl80]
    norm_num [MIN_VIBRANT_SATURATION]

/-- C8 (counterexample): on the single-color palette `[(80,53,53)]`, the
fill-empty pass copies the dark-muted color into the dark slot unchanged
(overriding the luma to `0.26` reproduces the same RGB), so the color
`(80,53,53)` occupies two slots of the final `Vibrancy` — slot uniqueness
fails for the full construction. -/
theorem claim_c8_counterexample :
    (vibrancyFromPalette [⟨80, 53, 53⟩] [1]).dark ≠ none ∧
    (vibrancyFromPalette [⟨80, 53, 53⟩] [1]).dark =
      (vibrancyFromPalette [⟨80, 53, 53⟩] [1]).dark_muted := by
  rw [vibrancyFromPalette, gen_cex, fill_cex]
  exact ⟨by simp, rfl⟩

end Vibrant
